import Mathlib

/-!
Shallow embedding of the picture_sorter photo-sorting tool (src/main.rs) and
proofs about its sequence-detection and copy-planning engine.

Modelling conventions:
* A filesystem path (`PathBuf`) is a list of components (`Path := List String`);
  `file_name()` is the last component and `join` is list append.
* Strings are processed at the `List Char` level so that every definition
  evaluates inside the kernel; `to_lowercase`, `ends_with`, `contains`,
  `split` and string comparison are translated from the corresponding Rust
  string operations.
* `chrono::DateTime<Utc>` is a record of calendar fields compared
  lexicographically; `NaiveDateTime::parse_from_str(_, "%Y:%m:%d %H:%M:%S")`
  is modelled by a field-wise parser with calendar validation.
* The exiftool JSON value is modelled by the three fields the program reads
  (`DateTimeOriginal`, `SpecialMode`, `DriveMode`), each an optional string
  (absent or non-string JSON fields are `none`).
* The two fixed regexes `Sequence:\s*(\d+)` and `Shot\s+(\d+)` are modelled by
  leftmost-match scanners over character lists.
* The filesystem is a capability record: `fs::metadata` is a partial map from
  paths to (is-regular-file, optional modification time), and `Path::exists`
  is definedness of that map.
* Rust `HashMap`s that the code iterates are association lists; maps that are
  only read (`exif_cache`) are functions to `Option`.
* `Vec::sort_by` (a stable sort) is modelled by the stable insertion sort
  `List.insertionSort` with the translated comparator.
-/

namespace PictureSorter

/-! ## Character and string primitives -/

/-- ASCII lowercasing of one character, modelling `char::to_lowercase` on the
ASCII range (the only range the program's extension and format-tag comparisons
exercise). -/
def charToLower (c : Char) : Char :=
  if 65 ≤ c.toNat ∧ c.toNat ≤ 90 then Char.ofNat (c.toNat + 32) else c

/-- ASCII uppercasing of one character, modelling `char::to_uppercase` on the
ASCII range. -/
def charToUpper (c : Char) : Char :=
  if 97 ≤ c.toNat ∧ c.toNat ≤ 122 then Char.ofNat (c.toNat - 32) else c

/-- Model of `str::to_lowercase`. -/
def to_lowercase (s : String) : String := String.mk (s.data.map charToLower)

/-- Model of `str::to_uppercase`. -/
def to_uppercase (s : String) : String := String.mk (s.data.map charToUpper)

/-- Model of `str::ends_with`. -/
def str_ends_with (s t : String) : Bool := t.data.isSuffixOf s.data

/-- Helper for `str_contains`: does `pat` occur in the haystack? -/
def strContainsAux (pat : List Char) : List Char → Bool
  | [] => pat.isEmpty
  | c :: rest => pat.isPrefixOf (c :: rest) || strContainsAux pat rest

/-- Model of `str::contains` for a string pattern. -/
def str_contains (s pat : String) : Bool := strContainsAux pat.data s.data

/-- Helper for `splitStr`: split a character list at a separator character,
accumulating the current segment in reverse. -/
def splitCharAux (sep : Char) : List Char → List Char → List (List Char)
  | [], acc => [acc.reverse]
  | c :: rest, acc =>
    if c = sep then acc.reverse :: splitCharAux sep rest []
    else splitCharAux sep rest (c :: acc)

/-- Model of `str::split(sep)` collected into a list (always non-empty, like
the Rust iterator). -/
def splitStr (sep : Char) (s : String) : List String :=
  (splitCharAux sep s.data []).map fun cs => String.mk cs

/-- Numeric value of a digit character. -/
def digitVal (c : Char) : Nat := c.toNat - 48

/-- Value of a digit string (most significant first). -/
def digitsToNat (cs : List Char) : Nat := cs.foldl (fun n c => n * 10 + digitVal c) 0

/-- Parse a non-empty all-digit character list, modelling the digit-run
parsing done by `str::parse` on `\d+` captures and by chrono's numeric
format specifiers. -/
def natOfDigits (cs : List Char) : Option Nat :=
  if cs ≠ [] ∧ cs.all Char.isDigit then some (digitsToNat cs) else none

/-- Decimal rendering of a natural number (Rust `Display` for integers). -/
def natRepr (n : Nat) : String := Nat.repr n

/-! ## Comparators (Rust `Ord`) -/

/-- `Ord` on natural numbers as a three-way comparison. -/
def natCmp (a b : Nat) : Ordering := if a < b then .lt else if b < a then .gt else .eq

/-- `Ord` on characters: by code point (equals Rust byte order on UTF-8). -/
def charCmp (a b : Char) : Ordering := natCmp a.toNat b.toNat

/-- `Ord` on strings: lexicographic on characters, modelling Rust `str` order. -/
def charListCmp : List Char → List Char → Ordering
  | [], [] => .eq
  | [], _ :: _ => .lt
  | _ :: _, [] => .gt
  | a :: as, b :: bs => (charCmp a b).then (charListCmp as bs)

/-- Model of `String`/`str` comparison (`a.cmp(&b)`). -/
def strCmp (a b : String) : Ordering := charListCmp a.data b.data

/-! ## Dates (`chrono::DateTime<Utc>`) -/

/-- A UTC timestamp at second precision, as the calendar fields the program
parses, formats and compares. -/
structure DateTime where
  year : Nat
  month : Nat
  day : Nat
  hour : Nat
  minute : Nat
  second : Nat
deriving DecidableEq

/-- `Ord` on `DateTime<Utc>`: instants compare as the lexicographic order of
their calendar fields. -/
def dtCmp (a b : DateTime) : Ordering :=
  (natCmp a.year b.year).then ((natCmp a.month b.month).then ((natCmp a.day b.day).then
    ((natCmp a.hour b.hour).then ((natCmp a.minute b.minute).then
      (natCmp a.second b.second)))))

/-- `date <= cutoff` on timestamps. -/
def dtLe (a b : DateTime) : Bool :=
  match dtCmp a b with
  | .gt => false
  | _ => true

/-- Is `y` a Gregorian leap year? -/
def isLeapYear (y : Nat) : Bool := y % 4 = 0 && (y % 100 ≠ 0 || y % 400 = 0)

/-- Number of days of month `m` in year `y`. -/
def daysInMonth (y m : Nat) : Nat :=
  if m = 2 then (if isLeapYear y then 29 else 28)
  else if m = 4 ∨ m = 6 ∨ m = 9 ∨ m = 11 then 30 else 31

/-- Model of `NaiveDateTime::parse_from_str(s, "%Y:%m:%d %H:%M:%S")`
(interpreted as UTC): numeric fields separated by `:` and one space, with
calendar validation of the parsed values. -/
def parse_datetime (s : String) : Option DateTime :=
  match splitStr ' ' s with
  | [d, t] =>
    match splitStr ':' d, splitStr ':' t with
    | [ys, ms, ds], [hs, mins, ss] =>
      match natOfDigits ys.data, natOfDigits ms.data, natOfDigits ds.data,
            natOfDigits hs.data, natOfDigits mins.data, natOfDigits ss.data with
      | some y, some mo, some da, some h, some mi, some se =>
        if 1 ≤ mo ∧ mo ≤ 12 ∧ 1 ≤ da ∧ da ≤ daysInMonth y mo ∧ h ≤ 23 ∧ mi ≤ 59 ∧ se ≤ 59
        then some ⟨y, mo, da, h, mi, se⟩ else none
      | _, _, _, _, _, _ => none
    | _, _ => none
  | _ => none

/-- `date.format("%Y")`: the year zero-padded to at least four digits. -/
def formatYear (n : Nat) : String :=
  if n < 10 then "000" ++ natRepr n
  else if n < 100 then "00" ++ natRepr n
  else if n < 1000 then "0" ++ natRepr n
  else natRepr n

/-- `date.format("%m")` / `date.format("%d")`: zero-padded to two digits. -/
def pad2 (n : Nat) : String := if n < 10 then "0" ++ natRepr n else natRepr n

/-! ## EXIF data (the fields read from exiftool's JSON) -/

/-- The projection of one exiftool JSON object onto the three fields the
program reads; a field that is absent or not a JSON string is `none`. -/
structure Exif where
  dateTimeOriginal : Option String
  specialMode : Option String
  driveMode : Option String
deriving DecidableEq

/-- `get_exif_date`: parse `DateTimeOriginal` with `%Y:%m:%d %H:%M:%S` and
accept the result only if the year lies in `[1990, 2050]`. -/
def get_exif_date (exif : Exif) : Option DateTime :=
  match exif.dateTimeOriginal with
  | some date_str =>
    match parse_datetime date_str with
    | some dt => if 1990 ≤ dt.year ∧ dt.year ≤ 2050 then some dt else none
    | none => none
  | none => none

/-- Leftmost match of the regex `Sequence:\s*(\d+)` tried at the head of the
character list: the literal, then optional whitespace, then the digit
capture. -/
def seqCaptureAt (cs : List Char) : Option (List Char) :=
  if "Sequence:".data.isPrefixOf cs then
    let ds := ((cs.drop 9).dropWhile Char.isWhitespace).takeWhile Char.isDigit
    if ds.isEmpty then none else some ds
  else none

/-- Leftmost match of the regex `Shot\s+(\d+)` tried at the head of the
character list: the literal, at least one whitespace character, then the
digit capture. -/
def shotCaptureAt (cs : List Char) : Option (List Char) :=
  if "Shot".data.isPrefixOf cs then
    let rest := cs.drop 4
    if (rest.takeWhile Char.isWhitespace).isEmpty then none
    else
      let ds := (rest.dropWhile Char.isWhitespace).takeWhile Char.isDigit
      if ds.isEmpty then none else some ds
  else none

/-- Leftmost-match scan: try the position matcher at every suffix, left to
right (the semantics of `Regex::captures`). -/
def firstCapture (matchAt : List Char → Option (List Char)) : List Char → Option (List Char)
  | [] => matchAt []
  | c :: rest =>
    match matchAt (c :: rest) with
    | some ds => some ds
    | none => firstCapture matchAt rest

/-- `get_sequence_info`: burst ordinal from `SpecialMode` via
`Sequence:\s*(\d+)`; `0` when the field is absent, the regex does not match,
or the capture overflows `u32`. -/
def get_sequence_info (exif : Exif) : Nat :=
  match exif.specialMode with
  | some special_mode =>
    match firstCapture seqCaptureAt special_mode.data with
    | some ds =>
      let n := digitsToNat ds
      if n < 4294967296 then n else 0
    | none => 0
  | none => 0

/-- `get_hdr_info`: HDR shot ordinal from `DriveMode` via `Shot\s+(\d+)`,
considered only when the field contains both the auto-bracketing and the
electronic-shutter marker; `none` otherwise (or on `u32` overflow). -/
def get_hdr_info (exif : Exif) : Option Nat :=
  match exif.driveMode with
  | some drive_mode =>
    if str_contains drive_mode "AE Auto Bracketing" &&
       str_contains drive_mode "Electronic shutter" then
      match firstCapture shotCaptureAt drive_mode.data with
      | some ds =>
        let n := digitsToNat ds
        if n < 4294967296 then some n else none
      | none => none
    else none
  | none => none

/-! ## File classification -/

/-- `is_raw_file`: case-insensitive extension match against the raw set. -/
def is_raw_file (filename : String) : Bool :=
  let ext := to_lowercase filename
  str_ends_with ext ".cr2" || str_ends_with ext ".nef" || str_ends_with ext ".arw" ||
  str_ends_with ext ".dng" || str_ends_with ext ".raw" || str_ends_with ext ".orf"

/-- `is_jpeg_file`: case-insensitive extension match against `{jpg, jpeg}`. -/
def is_jpeg_file (filename : String) : Bool :=
  let ext := to_lowercase filename
  str_ends_with ext ".jpg" || str_ends_with ext ".jpeg"

/-! ## Paths and the filesystem capability -/

/-- A filesystem path as its list of components (`PathBuf`). -/
abbrev Path := List String

/-- `Path::file_name` (with `to_str`): the last component. -/
def fileName (p : Path) : Option String := p.getLast?

/-- `Path::display`, used to render error messages. -/
def display : Path → String
  | [] => ""
  | [s] => s
  | s :: rest => s ++ "/" ++ display rest

/-- `Path` comparison (`a.cmp(&b)`): lexicographic on components. -/
def pathCmp : Path → Path → Ordering
  | [], [] => .eq
  | [], _ :: _ => .lt
  | _ :: _, [] => .gt
  | a :: as, b :: bs => (strCmp a b).then (pathCmp as bs)

/-- The result of one successful `fs::metadata` call: whether the entry is a
regular file, and its modification time when readable. -/
structure FMeta where
  isFile : Bool
  modified : Option DateTime
deriving DecidableEq

/-- The filesystem capability the planner consults: `fs::metadata` as a
partial map from paths to metadata (`none` models an `Err` result). -/
structure FS where
  meta : Path → Option FMeta

/-- `Path::exists`: the path has readable metadata. -/
def fsExists (fs : FS) (p : Path) : Bool := (fs.meta p).isSome

/-- Does the file at `p` have a raw or JPEG filename? (the per-file filter
used when collecting a unit's photo files). -/
def isPhotoPath (f : Path) : Bool :=
  match fileName f with
  | some filename => is_raw_file filename || is_jpeg_file filename
  | none => false

/-- Does the file at `p` have a JPEG filename? -/
def isJpegPath (f : Path) : Bool :=
  match fileName f with
  | some filename => is_jpeg_file filename
  | none => false

/-! ## Unit grouping (`group_files_by_base`) -/

/-- The unit key of a filename: everything before the first `.`
(`filename.split('.').next().unwrap_or("")`). -/
def baseKey (filename : String) : String := (splitStr '.' filename).headD ""

/-- `groups.entry(base).or_default().push(file_path)` on the association-list
model of the `HashMap`: append to the existing entry, or add a new key. -/
def insertGroup (gs : List (String × List Path)) (k : String) (p : Path) :
    List (String × List Path) :=
  match gs with
  | [] => [(k, [p])]
  | (k2, ps) :: rest =>
    if k2 = k then (k2, ps ++ [p]) :: rest else (k2, ps) :: insertGroup rest k p

/-- The loop body of `group_files_by_base`: a file with a readable filename
is pushed onto its key's entry; one without is skipped (a failed `to_str`). -/
def groupStep (gs : List (String × List Path)) (fp : Path) : List (String × List Path) :=
  match fileName fp with
  | some filename => insertGroup gs (baseKey filename) fp
  | none => gs

/-- `group_files_by_base` over an already-collected file list: key each file
by the part of its filename before the first dot. -/
def group_files_by_base (all_files : List Path) : List (String × List Path) :=
  all_files.foldl groupStep []

/-! ## Sequence detection (`detect_sequences`) -/

/-- A sequence tag with its destination folder name. -/
inductive SequenceType where
  | Burst : String → SequenceType
  | Hdr : String → SequenceType
deriving DecidableEq

/-- The `sequences: HashMap<String, SequenceType>` as an association list
with unique keys. -/
abbrev SeqMap := List (String × SequenceType)

/-- `HashMap::get` on the sequence map. -/
def lookupSeq : SeqMap → String → Option SequenceType
  | [], _ => none
  | (k2, v) :: rest, k => if k2 = k then some v else lookupSeq rest k

/-- `HashMap::insert` on the sequence map: replace the binding or append. -/
def insertSeq : SeqMap → String → SequenceType → SeqMap
  | [], k, v => [(k, v)]
  | (k2, v2) :: rest, k, v =>
    if k2 = k then (k2, v) :: rest else (k2, v2) :: insertSeq rest k v

/-- One element of `photo_info`: the tuple
`(base, burst_seq_num, hdr_shot_num, date)` collected per unit. -/
structure Info where
  base : String
  burst : Nat
  hdr : Option Nat
  date : DateTime
deriving DecidableEq

/-- The `photo_info` collection pass of `detect_sequences`: for every group
with at least one photo file and a cached exif record, record the unit key,
burst ordinal, HDR shot ordinal and date (EXIF date, else the current time
`now`). -/
def photoInfo (groups : List (String × List Path))
    (exif_cache : String → Option (Path × Exif)) (now : DateTime) : List Info :=
  groups.filterMap fun g =>
    if (g.2.filter isPhotoPath) ≠ [] then
      match exif_cache g.1 with
      | some (_, exif) =>
        some { base := g.1, burst := get_sequence_info exif, hdr := get_hdr_info exif,
               date := (get_exif_date exif).getD now }
      | none => none
    else none

/-- The `photo_info` sort comparator:
`a.3.cmp(&b.3).then_with(|| a.0.cmp(&b.0))` (date, then unit key). -/
def infoCmp (a b : Info) : Ordering := (dtCmp a.date b.date).then (strCmp a.base b.base)

/-- The comparator as a `≤` relation (not-greater). -/
def infoLe (a b : Info) : Prop := infoCmp a b ≠ .gt

instance : DecidableRel infoLe := fun _ _ => instDecidableNot

/-- `photo_info.sort_by(...)`: a stable sort by `infoCmp`. -/
def sortInfo (l : List Info) : List Info := List.insertionSort infoLe l

/-- The run state shared by both detection passes: the tag map built so far,
the current run of unit keys, the next expected ordinal and the pending
folder name. -/
structure RunState where
  seqs : SeqMap
  run : List String
  expected : Nat
  name : String

/-- Flushing a run: when the current run has more than one member, tag every
member with the run's folder name; otherwise leave the map unchanged. -/
def flushTag (mk : String → SequenceType) (name : String) (run : List String)
    (m : SeqMap) : SeqMap :=
  if run.length > 1 then run.foldl (fun acc b => insertSeq acc b (mk name)) m else m

/-- One step of the run state machine, shared by both passes via the ordinal
projection `ord` (for HDR, the shot ordinal as found; for burst, the ordinal
with `0` mapped to `none`):
ordinal `1` starts a new run after flushing the previous one; the expected
ordinal extends a non-empty run; anything else (and an absent ordinal)
flushes and clears the run, resetting the expected ordinal to `reset`.
The Rust re-check of `== 1` inside the broken-run branch is dead code, since
that branch is only reached when the ordinal is not `1`. -/
def gStep (ord : Info → Option Nat) (mk : String → SequenceType) (sfx : String)
    (reset : Nat) (st : RunState) (e : Info) : RunState :=
  match ord e with
  | some n =>
    if n = 1 then
      ⟨flushTag mk st.name st.run st.seqs, [e.base], 2, e.base ++ sfx⟩
    else if n = st.expected ∧ st.run ≠ [] then
      ⟨st.seqs, st.run ++ [e.base], st.expected + 1, st.name⟩
    else
      ⟨flushTag mk st.name st.run st.seqs, [], reset, st.name⟩
  | none => ⟨flushTag mk st.name st.run st.seqs, [], reset, st.name⟩

/-- Running the state machine from a start state over a list and flushing
the final run (the shape of each of the two passes). -/
def gPassFrom (ord : Info → Option Nat) (mk : String → SequenceType) (sfx : String)
    (reset : Nat) (st : RunState) (l : List Info) : SeqMap :=
  let f := l.foldl (gStep ord mk sfx reset) st
  flushTag mk f.name f.run f.seqs

/-- The first pass of `detect_sequences` (HDR): run the state machine over
the sorted list with the HDR shot ordinal, then flush the final run. -/
def hdrPass (info : List Info) : SeqMap :=
  let f := info.foldl (gStep (fun e => e.hdr) SequenceType.Hdr "_HDR" 1) ⟨[], [], 1, ""⟩
  flushTag SequenceType.Hdr f.name f.run f.seqs

/-- The burst ordinal as an optional value: `0` means "not part of a burst"
and acts like an absent ordinal. -/
def burstOrd (e : Info) : Option Nat := if e.burst = 0 then none else some e.burst

/-- One step of the second (burst) pass: units already present in the tag
map are skipped entirely (`sequences.contains_key(base)`), the rest feed the
same state machine with the burst ordinal. -/
def burstStep (st : RunState) (e : Info) : RunState :=
  if (lookupSeq st.seqs e.base).isSome then st
  else gStep burstOrd SequenceType.Burst "_BURST" 0 st e

/-- The second pass of `detect_sequences` (burst), extending the tag map
produced by the first pass. -/
def burstPass (info : List Info) (seqs0 : SeqMap) : SeqMap :=
  let f := info.foldl burstStep ⟨seqs0, [], 0, ""⟩
  flushTag SequenceType.Burst f.name f.run f.seqs

/-- `detect_sequences`: collect `photo_info`, sort by (date, unit key), then
run the HDR pass followed by the burst pass. -/
def detect_sequences (groups : List (String × List Path))
    (exif_cache : String → Option (Path × Exif)) (now : DateTime) : SeqMap :=
  let info := sortInfo (photoInfo groups exif_cache now)
  burstPass info (hdrPass info)

/-! ## Destination planning (`validate_and_plan_copy`) -/

/-- A `ValidationError`: the source file (as displayed) and a reason. -/
structure ValidationError where
  file : String
  reason : String
deriving DecidableEq

/-- `determine_target_base`: raw and JPEG files go to their trees by
extension; otherwise a name with at least three dot-separated components is
routed by its second-to-last component uppercased (raw format tags to the
raw tree, `JPG`/`JPEG` to the JPEG tree), and anything else to the unit's
default tree. -/
def determine_target_base (filename : String) (raw_dir jpeg_dir default_base : Path) :
    Path :=
  if is_raw_file filename then raw_dir
  else if is_jpeg_file filename then jpeg_dir
  else
    let parts := splitStr '.' filename
    if parts.length ≥ 3 then
      let format := to_uppercase (parts.getD (parts.length - 2) "")
      if format = "ORF" ∨ format = "CR2" ∨ format = "NEF" ∨ format = "ARW" ∨
         format = "DNG" ∨ format = "RAW" then raw_dir
      else if format = "JPG" ∨ format = "JPEG" then jpeg_dir
      else default_base
    else default_base

/-- The representative photo file of a unit as the planner picks it: the
first JPEG in the list, else the first photo file. -/
def findPhotoFile (file_list : List Path) : Option Path :=
  (file_list.find? isJpegPath).orElse fun _ => file_list.find? isPhotoPath

/-- The per-unit date resolution of `validate_and_plan_copy`: choose the
representative file and its date (cached EXIF date, else the
representative's modification time; with no photo file, the first file and
its modification time). `none` is the degenerate empty unit (unreachable
from grouping, where Rust would panic on `file_list[0]`); an unreadable
fallback time is the recorded validation error that skips the unit. -/
def resolveUnitDate (fs : FS) (exif_cache : String → Option (Path × Exif))
    (base : String) (file_list : List Path) :
    Option (Except ValidationError (Path × DateTime)) :=
  match findPhotoFile file_list with
  | some photo_file =>
    let date :=
      match exif_cache base with
      | some (_, exif) => get_exif_date exif
      | none => none
    match date with
    | some valid_date => some (.ok (photo_file, valid_date))
    | none =>
      match fs.meta photo_file with
      | some md =>
        match md.modified with
        | some mtime => some (.ok (photo_file, mtime))
        | none => some (.error ⟨display photo_file, "Cannot get file modification time"⟩)
      | none => some (.error ⟨display photo_file, "Cannot read file metadata"⟩)
  | none =>
    match file_list.head? with
    | some first_file =>
      match fs.meta first_file with
      | some md =>
        match md.modified with
        | some mtime => some (.ok (first_file, mtime))
        | none => some (.error ⟨display first_file, "Cannot get file modification time"⟩)
      | none => some (.error ⟨display first_file, "Cannot read file metadata"⟩)
    | none => none

/-- Does incremental mode skip this unit? (`date <= cutoff` under a
configured cutoff). -/
def cutoffSkip (cutoff_date : Option DateTime) (date : DateTime) : Bool :=
  match cutoff_date with
  | some cutoff => dtLe date cutoff
  | none => false

/-- The `year/month/day` path components of a resolved date. -/
def unitYmd (date : DateTime) : List String :=
  [formatYear date.year, pad2 date.month, pad2 date.day]

/-- The unit's optional sequence folder name from the tag map. -/
def unitSeqFolder (sequences : SeqMap) (base : String) : Option String :=
  (lookupSeq sequences base).map fun seq_type =>
    match seq_type with
    | .Burst folder_name => folder_name
    | .Hdr folder_name => folder_name

/-- The unit's default target tree: the raw tree when the representative is
a raw file, else the JPEG tree. -/
def unitDefaultBase (raw_dir jpeg_dir : Path) (photo_file : Path) : Path :=
  match fileName photo_file with
  | some filename => if is_raw_file filename then raw_dir else jpeg_dir
  | none => jpeg_dir

/-- The destination path computed for one source file:
`<tree>/<year>/<month>/<day>[/<sequence_folder>]/<original_filename>`. -/
def destFor (raw_dir jpeg_dir default_target_base : Path) (ymd : List String)
    (seq_folder : Option String) (file_path : Path) : Path :=
  let filename := (fileName file_path).getD ""
  let target_base := determine_target_base filename raw_dir jpeg_dir default_target_base
  (target_base ++ ymd ++ (match seq_folder with | some s => [s] | none => [])) ++ [filename]

/-- The per-file validation of the planner's inner loop: the source must
exist and be a regular file, and the computed destination must not already
exist; a passing file yields its copy-plan entry. -/
def planFile (fs : FS) (raw_dir jpeg_dir default_target_base : Path) (ymd : List String)
    (seq_folder : Option String) (file_path : Path) :
    Except ValidationError (Path × Path) :=
  match fs.meta file_path with
  | some md =>
    if md.isFile then
      let dest := destFor raw_dir jpeg_dir default_target_base ymd seq_folder file_path
      if fsExists fs dest then
        .error ⟨display file_path, "Destination already exists: " ++ display dest⟩
      else
        .ok (file_path, dest)
    else .error ⟨display file_path, "Source is not a regular file"⟩
  | none => .error ⟨display file_path, "Source file does not exist or cannot be accessed"⟩

/-- The planner's body for one unit: resolve the date (recording its error
if any), skip the unit when the cutoff applies, otherwise validate every
file, returning the errors and plan entries the unit contributes. -/
def planUnit (fs : FS) (raw_dir jpeg_dir : Path) (sequences : SeqMap)
    (exif_cache : String → Option (Path × Exif)) (cutoff_date : Option DateTime)
    (base : String) (file_list : List Path) :
    List ValidationError × List (Path × Path) :=
  match resolveUnitDate fs exif_cache base file_list with
  | none => ([], [])
  | some (.error e) => ([e], [])
  | some (.ok (photo_file, date)) =>
    if cutoffSkip cutoff_date date then ([], [])
    else
      let ymd := unitYmd date
      let seq_folder := unitSeqFolder sequences base
      let default_target_base := unitDefaultBase raw_dir jpeg_dir photo_file
      let results := file_list.map
        (planFile fs raw_dir jpeg_dir default_target_base ymd seq_folder)
      (results.filterMap fun r => match r with | .error e => some e | .ok _ => none,
       results.filterMap fun r => match r with | .ok pr => some pr | .error _ => none)

/-- The copy-plan order relation: by source path. -/
def planEntryLe (a b : Path × Path) : Prop := pathCmp a.1 b.1 ≠ .gt

instance : DecidableRel planEntryLe := fun _ _ => instDecidableNot

/-- `copy_plan.sort_by(|a, b| a.0.cmp(&b.0))`: a stable sort by source. -/
def sortPlan (l : List (Path × Path)) : List (Path × Path) :=
  List.insertionSort planEntryLe l

/-- `validate_and_plan_copy`: process every unit, collecting all validation
errors and plan entries; return the source-sorted plan when no error was
recorded, and the full error list otherwise. -/
def validate_and_plan_copy (fs : FS) (output_dir : Path)
    (groups : List (String × List Path)) (sequences : SeqMap)
    (exif_cache : String → Option (Path × Exif)) (cutoff_date : Option DateTime) :
    Except (List ValidationError) (List (Path × Path)) :=
  let raw_dir := output_dir ++ ["RAW"]
  let jpeg_dir := output_dir ++ ["JPEG"]
  let results := groups.map fun g =>
    planUnit fs raw_dir jpeg_dir sequences exif_cache cutoff_date g.1 g.2
  let errors := (results.map Prod.fst).flatten
  let copy_plan := (results.map Prod.snd).flatten
  if errors = [] then .ok (sortPlan copy_plan) else .error errors

/-! ## Lawfulness of the comparators -/

theorem then_swap (o1 o2 : Ordering) : (o1.then o2).swap = o1.swap.then o2.swap := by
  cases o1 <;> rfl

theorem natCmp_lt_iff {a b : Nat} : natCmp a b = .lt ↔ a < b := by
  unfold natCmp
  split_ifs with h1 h2 <;> simp <;> omega

theorem natCmp_eq_iff {a b : Nat} : natCmp a b = .eq ↔ a = b := by
  unfold natCmp
  split_ifs with h1 h2 <;> simp <;> omega

theorem natCmp_gt_iff {a b : Nat} : natCmp a b = .gt ↔ b < a := by
  unfold natCmp
  split_ifs with h1 h2 <;> simp <;> omega

theorem natCmp_swap (a b : Nat) : natCmp b a = (natCmp a b).swap := by
  unfold natCmp
  split_ifs <;> first
  | rfl
  | (exfalso ; omega)

theorem charCmp_eq_iff {a b : Char} : charCmp a b = .eq ↔ a = b := by
  unfold charCmp
  rw [natCmp_eq_iff]
  constructor
  · intro h
    exact Char.ext (UInt32.toNat.inj h)
  · intro h
    rw [h]

theorem charCmp_lt_trans {a b c : Char} (h1 : charCmp a b = .lt) (h2 : charCmp b c = .lt) :
    charCmp a c = .lt := by
  unfold charCmp at h1 h2 ⊢
  rw [natCmp_lt_iff] at h1 h2 ⊢
  omega

theorem charCmp_swap (a b : Char) : charCmp b a = (charCmp a b).swap := by
  unfold charCmp
  exact natCmp_swap _ _

theorem charListCmp_eq_iff {x y : List Char} : charListCmp x y = .eq ↔ x = y := by
  induction x generalizing y with
  | nil => cases y <;> simp [charListCmp]
  | cons a as ih =>
    cases y with
    | nil => simp [charListCmp]
    | cons b bs =>
      simp only [charListCmp, Ordering.then_eq_eq, charCmp_eq_iff, ih, List.cons.injEq]

theorem charListCmp_swap (x y : List Char) : charListCmp y x = (charListCmp x y).swap := by
  induction x generalizing y with
  | nil => cases y <;> rfl
  | cons a as ih =>
    cases y with
    | nil => rfl
    | cons b bs =>
      simp only [charListCmp]
      rw [then_swap, ← charCmp_swap, ← ih]

theorem charListCmp_lt_trans {x y z : List Char} (h1 : charListCmp x y = .lt)
    (h2 : charListCmp y z = .lt) : charListCmp x z = .lt := by
  induction x generalizing y z with
  | nil =>
    cases y with
    | nil => exact h2
    | cons b bs => cases z with
      | nil => exact absurd h2 (by simp [charListCmp])
      | cons c cs => rfl
  | cons a as ih =>
    cases y with
    | nil => exact absurd h1 (by simp [charListCmp])
    | cons b bs =>
      cases z with
      | nil => exact absurd h2 (by simp [charListCmp])
      | cons c cs =>
        simp only [charListCmp, Ordering.then_eq_lt, charCmp_eq_iff] at h1 h2 ⊢
        rcases h1 with h1 | ⟨rfl, h1⟩
        · rcases h2 with h2 | ⟨rfl, h2⟩
          · exact Or.inl (charCmp_lt_trans h1 h2)
          · exact Or.inl h1
        · rcases h2 with h2 | ⟨rfl, h2⟩
          · exact Or.inl h2
          · exact Or.inr ⟨rfl, ih h1 h2⟩

theorem strCmp_eq_iff {a b : String} : strCmp a b = .eq ↔ a = b := by
  unfold strCmp
  rw [charListCmp_eq_iff]
  constructor
  · exact String.ext
  · intro h
    rw [h]

theorem strCmp_swap (a b : String) : strCmp b a = (strCmp a b).swap := charListCmp_swap _ _

theorem strCmp_lt_trans {a b c : String} (h1 : strCmp a b = .lt) (h2 : strCmp b c = .lt) :
    strCmp a c = .lt := charListCmp_lt_trans h1 h2

theorem dtCmp_lt_iff {a b : DateTime} : dtCmp a b = .lt ↔
    (a.year < b.year ∨ (a.year = b.year ∧ (a.month < b.month ∨ (a.month = b.month ∧
      (a.day < b.day ∨ (a.day = b.day ∧ (a.hour < b.hour ∨ (a.hour = b.hour ∧
        (a.minute < b.minute ∨ (a.minute = b.minute ∧ a.second < b.second)))))))))) := by
  unfold dtCmp
  simp only [Ordering.then_eq_lt, natCmp_lt_iff, natCmp_eq_iff]

theorem dtCmp_eq_iff {a b : DateTime} : dtCmp a b = .eq ↔ a = b := by
  unfold dtCmp
  simp only [Ordering.then_eq_eq, natCmp_eq_iff]
  constructor
  · rintro ⟨h1, h2, h3, h4, h5, h6⟩
    cases a
    cases b
    simp_all
  · rintro rfl
    simp

theorem dtCmp_swap (a b : DateTime) : dtCmp b a = (dtCmp a b).swap := by
  unfold dtCmp
  rw [then_swap, then_swap, then_swap, then_swap, then_swap,
    ← natCmp_swap, ← natCmp_swap, ← natCmp_swap, ← natCmp_swap, ← natCmp_swap,
    ← natCmp_swap]

theorem dtCmp_lt_trans {a b c : DateTime} (h1 : dtCmp a b = .lt) (h2 : dtCmp b c = .lt) :
    dtCmp a c = .lt := by
  rw [dtCmp_lt_iff] at h1 h2 ⊢
  omega

theorem infoLe_iff {a b : Info} : infoLe a b ↔
    (dtCmp a.date b.date = .lt ∨ (a.date = b.date ∧ strCmp a.base b.base ≠ .gt)) := by
  unfold infoLe infoCmp
  cases hd : dtCmp a.date b.date with
  | lt => simp [Ordering.then]
  | eq =>
    have : a.date = b.date := dtCmp_eq_iff.mp hd
    simp [Ordering.then, this]
  | gt =>
    have : a.date ≠ b.date := by
      intro h
      rw [h] at hd
      rw [dtCmp_eq_iff.mpr rfl] at hd
      exact absurd hd (by simp)
    simp [Ordering.then, this]

theorem infoLe_total (a b : Info) : infoLe a b ∨ infoLe b a := by
  by_cases h : infoCmp a b = .gt
  · right
    unfold infoLe infoCmp at h ⊢
    rw [dtCmp_swap, strCmp_swap, ← then_swap, h]
    decide
  · exact Or.inl h

theorem infoLe_trans {a b c : Info} (h1 : infoLe a b) (h2 : infoLe b c) : infoLe a c := by
  rw [infoLe_iff] at h1 h2 ⊢
  rcases h1 with h1 | ⟨hd1, hs1⟩
  · rcases h2 with h2 | ⟨hd2, hs2⟩
    · exact Or.inl (dtCmp_lt_trans h1 h2)
    · exact Or.inl (hd2 ▸ h1)
  · rcases h2 with h2 | ⟨hd2, hs2⟩
    · exact Or.inl (hd1 ▸ h2)
    · refine Or.inr ⟨hd1.trans hd2, ?_⟩
      intro hgt
      rcases hlt1 : strCmp a.base b.base with _ | _ | _
      · rcases hlt2 : strCmp b.base c.base with _ | _ | _
        · exact absurd (strCmp_lt_trans hlt1 hlt2) (by rw [hgt]; simp)
        · rw [strCmp_eq_iff.mp hlt2] at hlt1
          exact absurd hlt1 (by rw [hgt]; simp)
        · exact hs2 hlt2
      · rw [strCmp_eq_iff.mp hlt1] at hgt
        exact hs2 hgt
      · exact hs1 hlt1

/-! ## Helper lemmas about the sequence-detection state machine -/

/-- The tag map binds each key at most once. -/
def NodupKeys (m : SeqMap) : Prop := (m.map Prod.fst).Nodup

theorem lookupSeq_insertSeq_ne {m : SeqMap} {k b : String} (v : SequenceType) (h : k ≠ b) :
    lookupSeq (insertSeq m k v) b = lookupSeq m b := by
  induction m with
  | nil => simp [insertSeq, lookupSeq, h]
  | cons kv rest ih =>
    obtain ⟨k2, v2⟩ := kv
    by_cases hk : k2 = k
    · subst hk
      simp [insertSeq, lookupSeq, h]
    · simp [insertSeq, lookupSeq, hk, ih]

theorem keys_insertSeq (m : SeqMap) (k : String) (v : SequenceType) :
    (insertSeq m k v).map Prod.fst =
      if k ∈ m.map Prod.fst then m.map Prod.fst else m.map Prod.fst ++ [k] := by
  induction m with
  | nil => simp [insertSeq]
  | cons kv rest ih =>
    obtain ⟨k2, v2⟩ := kv
    by_cases hk : k2 = k
    · subst hk
      simp [insertSeq]
    · simp only [insertSeq, if_neg hk, List.map_cons, ih]
      by_cases hmem : k ∈ rest.map Prod.fst
      · simp [hmem, Ne.symm hk]
      · simp [hmem, Ne.symm hk]

theorem nodupKeys_insertSeq {m : SeqMap} (k : String) (v : SequenceType)
    (h : NodupKeys m) : NodupKeys (insertSeq m k v) := by
  unfold NodupKeys at h ⊢
  rw [keys_insertSeq]
  by_cases hmem : k ∈ m.map Prod.fst
  · simp [hmem, h]
  · simp [hmem, h, List.nodup_append, List.disjoint_singleton]

theorem lookupSeq_foldl_insert_not_mem {run : List String} {m : SeqMap} {v : SequenceType}
    {b : String} (h : b ∉ run) :
    lookupSeq (run.foldl (fun acc x => insertSeq acc x v) m) b = lookupSeq m b := by
  induction run generalizing m with
  | nil => rfl
  | cons x rest ih =>
    have hx : x ≠ b := fun hxb => h (hxb ▸ List.mem_cons_self x rest)
    have hrest : b ∉ rest := fun hb => h (List.mem_cons_of_mem x hb)
    simp only [List.foldl_cons]
    rw [ih hrest, lookupSeq_insertSeq_ne v hx]

theorem nodupKeys_foldl_insert {run : List String} {m : SeqMap} {v : SequenceType}
    (h : NodupKeys m) :
    NodupKeys (run.foldl (fun acc x => insertSeq acc x v) m) := by
  induction run generalizing m with
  | nil => exact h
  | cons x rest ih =>
    simp only [List.foldl_cons]
    exact ih (nodupKeys_insertSeq x v h)

theorem lookupSeq_flushTag_not_mem (mk : String → SequenceType) (name : String)
    {run : List String} {m : SeqMap} {b : String} (h : b ∉ run) :
    lookupSeq (flushTag mk name run m) b = lookupSeq m b := by
  unfold flushTag
  split
  · exact lookupSeq_foldl_insert_not_mem h
  · rfl

theorem nodupKeys_flushTag (mk : String → SequenceType) (name : String)
    {run : List String} {m : SeqMap} (h : NodupKeys m) :
    NodupKeys (flushTag mk name run m) := by
  unfold flushTag
  split
  · exact nodupKeys_foldl_insert h
  · exact h

theorem flushTag_singleton (mk : String → SequenceType) (name : String) (x : String)
    (m : SeqMap) : flushTag mk name [x] m = m := by
  unfold flushTag
  rfl

theorem gStep_run_subset (ord : Info → Option Nat) (mk : String → SequenceType)
    (sfx : String) (reset : Nat) (st : RunState) (e : Info) {b : String}
    (h : b ∈ (gStep ord mk sfx reset st e).run) : b = e.base ∨ b ∈ st.run := by
  unfold gStep at h
  split at h
  · split at h
    · simp at h
      exact Or.inl h
    · split at h
      · simp at h
        rcases h with h | h
        · exact Or.inr h
        · exact Or.inl h
      · simp at h
  · simp at h

theorem gStep_seqs_lookup (ord : Info → Option Nat) (mk : String → SequenceType)
    (sfx : String) (reset : Nat) (st : RunState) (e : Info) {b : String}
    (h : b ∉ st.run) :
    lookupSeq (gStep ord mk sfx reset st e).seqs b = lookupSeq st.seqs b := by
  unfold gStep
  split
  · split
    · exact lookupSeq_flushTag_not_mem _ _ h
    · split
      · rfl
      · exact lookupSeq_flushTag_not_mem _ _ h
  · exact lookupSeq_flushTag_not_mem _ _ h

theorem nodupKeys_gStep (ord : Info → Option Nat) (mk : String → SequenceType)
    (sfx : String) (reset : Nat) (st : RunState) (e : Info)
    (h : NodupKeys st.seqs) : NodupKeys (gStep ord mk sfx reset st e).seqs := by
  unfold gStep
  split
  · split
    · exact nodupKeys_flushTag _ _ h
    · split
      · exact h
      · exact nodupKeys_flushTag _ _ h
  · exact nodupKeys_flushTag _ _ h

theorem gRun_untouched (ord : Info → Option Nat) (mk : String → SequenceType)
    (sfx : String) (reset : Nat) {l : List Info} {st : RunState} {b : String}
    (hrun : b ∉ st.run) (hl : ∀ e ∈ l, e.base ≠ b) :
    lookupSeq (l.foldl (gStep ord mk sfx reset) st).seqs b = lookupSeq st.seqs b
    ∧ b ∉ (l.foldl (gStep ord mk sfx reset) st).run := by
  induction l generalizing st with
  | nil => exact ⟨rfl, hrun⟩
  | cons e rest ih =>
    have hrun2 : b ∉ (gStep ord mk sfx reset st e).run := by
      intro hmem
      rcases gStep_run_subset ord mk sfx reset st e hmem with h | h
      · exact hl e (List.mem_cons_self e rest) h.symm
      · exact hrun h
    have hl2 : ∀ x ∈ rest, x.base ≠ b := fun x hx => hl x (List.mem_cons_of_mem e hx)
    simp only [List.foldl_cons]
    obtain ⟨hseq, hrun3⟩ := ih hrun2 hl2
    exact ⟨hseq.trans (gStep_seqs_lookup ord mk sfx reset st e hrun), hrun3⟩

theorem gPassFrom_untouched (ord : Info → Option Nat) (mk : String → SequenceType)
    (sfx : String) (reset : Nat) {l : List Info} {st : RunState} {b : String}
    (hrun : b ∉ st.run) (hl : ∀ e ∈ l, e.base ≠ b) :
    lookupSeq (gPassFrom ord mk sfx reset st l) b = lookupSeq st.seqs b := by
  unfold gPassFrom
  obtain ⟨hseq, hrun2⟩ := gRun_untouched ord mk sfx reset hrun hl
  rw [lookupSeq_flushTag_not_mem _ _ hrun2, hseq]

theorem gStep_singleton_no2 (ord : Info → Option Nat) (mk : String → SequenceType)
    (sfx : String) (reset : Nat) {M : SeqMap} {nm eb : String} {x : Info}
    (hx2 : ord x ≠ some 2) :
    (gStep ord mk sfx reset ⟨M, [eb], 2, nm⟩ x).seqs = M ∧
    (∀ b, b ∈ (gStep ord mk sfx reset ⟨M, [eb], 2, nm⟩ x).run → b = x.base) := by
  cases ho : ord x with
  | none =>
    have hst : gStep ord mk sfx reset ⟨M, [eb], 2, nm⟩ x
        = ⟨flushTag mk nm [eb] M, [], reset, nm⟩ := by
      unfold gStep
      simp only [ho]
    rw [hst, flushTag_singleton]
    exact ⟨rfl, by intro b hb; simp at hb⟩
  | some n =>
    by_cases hn1 : n = 1
    · subst hn1
      have hst : gStep ord mk sfx reset ⟨M, [eb], 2, nm⟩ x
          = ⟨flushTag mk nm [eb] M, [x.base], 2, x.base ++ sfx⟩ := by
        unfold gStep
        simp only [ho]
        simp
      rw [hst, flushTag_singleton]
      refine ⟨rfl, ?_⟩
      intro b hb
      simpa using hb
    · have hn2 : n ≠ 2 := by
        intro h
        subst h
        exact hx2 ho
      have hst : gStep ord mk sfx reset ⟨M, [eb], 2, nm⟩ x
          = ⟨flushTag mk nm [eb] M, [], reset, nm⟩ := by
        unfold gStep
        simp only [ho]
        rw [if_neg hn1, if_neg (by rintro ⟨h, _⟩; exact hn2 h)]
      rw [hst, flushTag_singleton]
      exact ⟨rfl, by intro b hb; simp at hb⟩

theorem gPass_cons_no_singleton (ord : Info → Option Nat) (mk : String → SequenceType)
    (sfx : String) (reset : Nat) {st1 : RunState} {e : Info} {post : List Info}
    (hord : ord e = some 1)
    (hlook : lookupSeq st1.seqs e.base = none)
    (hrun : e.base ∉ st1.run)
    (hpost : ∀ x ∈ post, x.base ≠ e.base)
    (hsucc : ∀ x, post.head? = some x → ord x ≠ some 2) :
    lookupSeq (gPassFrom ord mk sfx reset st1 (e :: post)) e.base = none := by
  have hstep : gStep ord mk sfx reset st1 e
      = ⟨flushTag mk st1.name st1.run st1.seqs, [e.base], 2, e.base ++ sfx⟩ := by
    unfold gStep
    simp only [hord]
    simp
  have hA2 : lookupSeq (flushTag mk st1.name st1.run st1.seqs) e.base = none := by
    rw [lookupSeq_flushTag_not_mem _ _ hrun]
    exact hlook
  unfold gPassFrom
  rw [List.foldl_cons, hstep]
  cases post with
  | nil =>
    simp only [List.foldl_nil]
    rw [flushTag_singleton]
    exact hA2
  | cons x rest =>
    simp only [List.foldl_cons]
    obtain ⟨hseqB, hrunB⟩ := @gStep_singleton_no2 ord mk sfx reset
      (flushTag mk st1.name st1.run st1.seqs) (e.base ++ sfx) e.base x (hsucc x rfl)
    have hrunB2 : e.base ∉ (gStep ord mk sfx reset
        ⟨flushTag mk st1.name st1.run st1.seqs, [e.base], 2, e.base ++ sfx⟩ x).run := by
      intro hmem
      exact (hpost x (by simp)) (hrunB _ hmem).symm
    have huntouched := @gPassFrom_untouched ord mk sfx reset rest
      (gStep ord mk sfx reset
        ⟨flushTag mk st1.name st1.run st1.seqs, [e.base], 2, e.base ++ sfx⟩ x)
      e.base hrunB2 (fun y hy => hpost y (List.mem_cons_of_mem x hy))
    exact huntouched.trans (by rw [hseqB]; exact hA2)

theorem gPass_no_singleton (ord : Info → Option Nat) (mk : String → SequenceType)
    (sfx : String) (reset : Nat) {m0 : SeqMap} {r0 : Nat} {n0 : String}
    {pre post : List Info} {e : Info}
    (hord : ord e = some 1)
    (hm0 : lookupSeq m0 e.base = none)
    (hpre : ∀ x ∈ pre, x.base ≠ e.base)
    (hpost : ∀ x ∈ post, x.base ≠ e.base)
    (hsucc : ∀ x, post.head? = some x → ord x ≠ some 2) :
    lookupSeq (gPassFrom ord mk sfx reset ⟨m0, [], r0, n0⟩ (pre ++ e :: post)) e.base
      = none := by
  obtain ⟨hlook1, hrun1⟩ := @gRun_untouched ord mk sfx reset pre
    ⟨m0, [], r0, n0⟩ e.base (by simp) hpre
  have hmain := @gPass_cons_no_singleton ord mk sfx reset
    (pre.foldl (gStep ord mk sfx reset) ⟨m0, [], r0, n0⟩) e post
    hord (hlook1.trans hm0) hrun1 hpost hsucc
  unfold gPassFrom at hmain ⊢
  rw [List.foldl_append]
  exact hmain

/-! ## Skip-elimination: the burst pass equals the pure machine on the
unskipped sublist -/

theorem burst_fold_eq_filter {m0 : SeqMap} {info : List Info} {st : RunState}
    (hrun : ∀ b ∈ st.run, ∀ x ∈ info, x.base ≠ b)
    (hskip : ∀ x ∈ info, (lookupSeq st.seqs x.base).isSome
      = (lookupSeq m0 x.base).isSome)
    (hnd : (info.map Info.base).Nodup) :
    info.foldl burstStep st =
      (info.filter fun x => (lookupSeq m0 x.base).isNone).foldl
        (gStep burstOrd SequenceType.Burst "_BURST" 0) st := by
  induction info generalizing st with
  | nil => rfl
  | cons x rest ih =>
    simp only [List.map_cons, List.nodup_cons] at hnd
    by_cases hx : (lookupSeq st.seqs x.base).isSome = true
    · have hm0some : (lookupSeq m0 x.base).isSome = true := by
        rw [← hskip x (List.mem_cons_self x rest)]
        exact hx
      have hm0x : (lookupSeq m0 x.base).isNone = false := by
        cases h : lookupSeq m0 x.base
        · rw [h] at hm0some
          exact absurd hm0some (by simp)
        · rfl
      have hbstep : burstStep st x = st := by
        unfold burstStep
        rw [if_pos hx]
      rw [List.foldl_cons, hbstep, List.filter_cons_of_neg (by simp [hm0x])]
      exact ih (fun b hb y hy => hrun b hb y (List.mem_cons_of_mem x hy))
        (fun y hy => hskip y (List.mem_cons_of_mem x hy)) hnd.2
    · have hm0some : (lookupSeq m0 x.base).isSome = false := by
        rw [← hskip x (List.mem_cons_self x rest)]
        simpa using hx
      have hm0x : (lookupSeq m0 x.base).isNone = true := by
        cases h : lookupSeq m0 x.base
        · rfl
        · rw [h] at hm0some
          exact absurd hm0some (by simp)
      have hbstep : burstStep st x = gStep burstOrd SequenceType.Burst "_BURST" 0 st x := by
        unfold burstStep
        rw [if_neg (by simpa using hx)]
      rw [List.foldl_cons, hbstep, List.filter_cons_of_pos (by simp [hm0x]),
        List.foldl_cons]
      refine ih ?_ ?_ hnd.2
      · intro b hb y hy
        rcases gStep_run_subset burstOrd SequenceType.Burst "_BURST" 0 st x hb with h | h
        · subst h
          exact fun hyx => hnd.1 (hyx ▸ List.mem_map_of_mem Info.base hy)
        · exact hrun b h y (List.mem_cons_of_mem x hy)
      · intro y hy
        have hyrun : y.base ∉ st.run := by
          intro hmem
          exact hrun y.base hmem y (List.mem_cons_of_mem x hy) rfl
        rw [gStep_seqs_lookup burstOrd SequenceType.Burst "_BURST" 0 st x hyrun]
        exact hskip y (List.mem_cons_of_mem x hy)

theorem burstPass_eq_filter {info : List Info} {m0 : SeqMap}
    (hnd : (info.map Info.base).Nodup) :
    burstPass info m0 = gPassFrom burstOrd SequenceType.Burst "_BURST" 0
      ⟨m0, [], 0, ""⟩ (info.filter fun x => (lookupSeq m0 x.base).isNone) := by
  unfold burstPass gPassFrom
  rw [burst_fold_eq_filter (by simp) (fun x _ => rfl) hnd]

theorem hdrPass_eq (info : List Info) :
    hdrPass info = gPassFrom (fun e => e.hdr) SequenceType.Hdr "_HDR" 1
      ⟨[], [], 1, ""⟩ info := rfl

theorem nodupKeys_gRun (ord : Info → Option Nat) (mk : String → SequenceType)
    (sfx : String) (reset : Nat) {l : List Info} {st : RunState}
    (h : NodupKeys st.seqs) :
    NodupKeys ((l.foldl (gStep ord mk sfx reset) st).seqs) := by
  induction l generalizing st with
  | nil => exact h
  | cons e rest ih =>
    rw [List.foldl_cons]
    exact ih (nodupKeys_gStep ord mk sfx reset st e h)

theorem nodupKeys_gPassFrom (ord : Info → Option Nat) (mk : String → SequenceType)
    (sfx : String) (reset : Nat) {l : List Info} {st : RunState}
    (h : NodupKeys st.seqs) :
    NodupKeys (gPassFrom ord mk sfx reset st l) := by
  unfold gPassFrom
  exact nodupKeys_flushTag _ _ (nodupKeys_gRun ord mk sfx reset h)

theorem nodupKeys_burst_fold {info : List Info} {st : RunState}
    (h : NodupKeys st.seqs) :
    NodupKeys ((info.foldl burstStep st).seqs) := by
  induction info generalizing st with
  | nil => exact h
  | cons e rest ih =>
    rw [List.foldl_cons]
    apply ih
    unfold burstStep
    split
    · exact h
    · exact nodupKeys_gStep _ _ _ _ st e h

theorem nodupKeys_burstPass {info : List Info} {m0 : SeqMap} (h : NodupKeys m0) :
    NodupKeys (burstPass info m0) := by
  unfold burstPass
  exact nodupKeys_flushTag _ _ (@nodupKeys_burst_fold info ⟨m0, [], 0, ""⟩ h)

theorem burst_fold_preserves_hdr {info : List Info} {st : RunState} {base f : String}
    (hst : lookupSeq st.seqs base = some (SequenceType.Hdr f)) (hrun : base ∉ st.run) :
    lookupSeq ((info.foldl burstStep st).seqs) base = some (SequenceType.Hdr f)
    ∧ base ∉ (info.foldl burstStep st).run := by
  induction info generalizing st with
  | nil => exact ⟨hst, hrun⟩
  | cons x rest ih =>
    rw [List.foldl_cons]
    by_cases hskip : (lookupSeq st.seqs x.base).isSome = true
    · have hb : burstStep st x = st := by
        unfold burstStep
        rw [if_pos hskip]
      rw [hb]
      exact ih hst hrun
    · have hxb : x.base ≠ base := by
        intro h
        rw [h, hst] at hskip
        exact hskip (by simp)
      have hb : burstStep st x = gStep burstOrd SequenceType.Burst "_BURST" 0 st x := by
        unfold burstStep
        rw [if_neg (by simpa using hskip)]
      rw [hb]
      apply ih
      · rw [gStep_seqs_lookup _ _ _ _ _ _ hrun]
        exact hst
      · intro hmem
        rcases gStep_run_subset _ _ _ _ _ _ hmem with h | h
        · exact hxb h.symm
        · exact hrun h

theorem burstPass_preserves_hdr {info : List Info} {m0 : SeqMap} {base f : String}
    (h : lookupSeq m0 base = some (SequenceType.Hdr f)) :
    lookupSeq (burstPass info m0) base = some (SequenceType.Hdr f) := by
  unfold burstPass
  obtain ⟨h1, h2⟩ := @burst_fold_preserves_hdr info ⟨m0, [], 0, ""⟩ base f h (by simp)
  rw [lookupSeq_flushTag_not_mem _ _ h2]
  exact h1

/-! ## Claim C5: HDR priority and single-tag invariant -/

/-- C5: the final tag map of `detect_sequences` binds every unit key at most
once (`NodupKeys`), and a unit tagged `Hdr` by the first pass keeps exactly
that tag through the burst pass — the burst pass skips units already in the
map, so a unit qualifying for both kinds of run ends up `Hdr`, never
`Burst`. -/
theorem C5_hdr_priority (groups : List (String × List Path))
    (exif_cache : String → Option (Path × Exif)) (now : DateTime) (base f : String) :
    NodupKeys (detect_sequences groups exif_cache now) ∧
    (lookupSeq (hdrPass (sortInfo (photoInfo groups exif_cache now))) base
        = some (SequenceType.Hdr f) →
      lookupSeq (detect_sequences groups exif_cache now) base
        = some (SequenceType.Hdr f)) := by
  constructor
  · show NodupKeys (burstPass (sortInfo (photoInfo groups exif_cache now))
      (hdrPass (sortInfo (photoInfo groups exif_cache now))))
    apply nodupKeys_burstPass
    rw [hdrPass_eq]
    exact nodupKeys_gPassFrom _ _ _ _ (by simp [NodupKeys])
  · intro h
    show lookupSeq (burstPass (sortInfo (photoInfo groups exif_cache now))
      (hdrPass (sortInfo (photoInfo groups exif_cache now)))) base
        = some (SequenceType.Hdr f)
    exact burstPass_preserves_hdr h

/-- C5 witness: two units whose metadata qualifies them simultaneously for
an HDR run (Shot 1/Shot 2) and a burst run (Sequence 1/Sequence 2) are
tagged `Hdr` by the full detector. -/
theorem C5_hdr_priority_witness :
    NodupKeys (detect_sequences
      [("IMG001", [["in", "IMG001.jpg"]]), ("IMG002", [["in", "IMG002.jpg"]])]
      (fun b =>
        if b = "IMG001" then
          some (["in", "IMG001.jpg"],
            ⟨some "2024:01:05 10:00:00", some "Sequence: 1",
             some "AE Auto Bracketing; Electronic shutter; Shot 1"⟩)
        else if b = "IMG002" then
          some (["in", "IMG002.jpg"],
            ⟨some "2024:01:05 10:00:01", some "Sequence: 2",
             some "AE Auto Bracketing; Electronic shutter; Shot 2"⟩)
        else none)
      ⟨2026, 1, 1, 0, 0, 0⟩) ∧
    lookupSeq (detect_sequences
      [("IMG001", [["in", "IMG001.jpg"]]), ("IMG002", [["in", "IMG002.jpg"]])]
      (fun b =>
        if b = "IMG001" then
          some (["in", "IMG001.jpg"],
            ⟨some "2024:01:05 10:00:00", some "Sequence: 1",
             some "AE Auto Bracketing; Electronic shutter; Shot 1"⟩)
        else if b = "IMG002" then
          some (["in", "IMG002.jpg"],
            ⟨some "2024:01:05 10:00:01", some "Sequence: 2",
             some "AE Auto Bracketing; Electronic shutter; Shot 2"⟩)
        else none)
      ⟨2026, 1, 1, 0, 0, 0⟩) "IMG001" = some (SequenceType.Hdr "IMG001_HDR") :=
  ⟨(C5_hdr_priority
      [("IMG001", [["in", "IMG001.jpg"]]), ("IMG002", [["in", "IMG002.jpg"]])]
      (fun b =>
        if b = "IMG001" then
          some (["in", "IMG001.jpg"],
            ⟨some "2024:01:05 10:00:00", some "Sequence: 1",
             some "AE Auto Bracketing; Electronic shutter; Shot 1"⟩)
        else if b = "IMG002" then
          some (["in", "IMG002.jpg"],
            ⟨some "2024:01:05 10:00:01", some "Sequence: 2",
             some "AE Auto Bracketing; Electronic shutter; Shot 2"⟩)
        else none)
      ⟨2026, 1, 1, 0, 0, 0⟩ "IMG001" "IMG001_HDR").1,
   (C5_hdr_priority
      [("IMG001", [["in", "IMG001.jpg"]]), ("IMG002", [["in", "IMG002.jpg"]])]
      (fun b =>
        if b = "IMG001" then
          some (["in", "IMG001.jpg"],
            ⟨some "2024:01:05 10:00:00", some "Sequence: 1",
             some "AE Auto Bracketing; Electronic shutter; Shot 1"⟩)
        else if b = "IMG002" then
          some (["in", "IMG002.jpg"],
            ⟨some "2024:01:05 10:00:01", some "Sequence: 2",
             some "AE Auto Bracketing; Electronic shutter; Shot 2"⟩)
        else none)
      ⟨2026, 1, 1, 0, 0, 0⟩ "IMG001" "IMG001_HDR").2 (by decide)⟩

/-! ## Claim C6: no run of length one is tagged -/

/-- C6 (amended): over any sorted input with distinct unit keys, a unit
whose HDR ordinal is `1` and whose immediate successor does not carry HDR
ordinal `2` (in particular the last unit) receives no tag from the HDR
pass; and a unit whose burst ordinal is `1` that is not followed — among the
units the burst pass does not skip as already HDR-tagged — by a unit with
burst ordinal `2` receives no tag at all from the detector. (The claim as
stated — "receives no SequenceTag" — fails, because the unit can still be
tagged by the *other* pass; see the counterexample.) -/
theorem C6_no_singleton_runs (info : List Info) (hnd : (info.map Info.base).Nodup) :
    (∀ pre e post, info = pre ++ e :: post → e.hdr = some 1 →
      (∀ x, post.head? = some x → x.hdr ≠ some 2) →
      lookupSeq (hdrPass info) e.base = none)
    ∧ (∀ fpre e fpost,
      (info.filter fun x => (lookupSeq (hdrPass info) x.base).isNone)
        = fpre ++ e :: fpost →
      e.burst = 1 →
      (∀ x, fpost.head? = some x → x.burst ≠ 2) →
      lookupSeq (burstPass info (hdrPass info)) e.base = none) := by
  constructor
  · intro pre e post hsplit hhdr hsucc
    subst hsplit
    rw [List.map_append, List.map_cons] at hnd
    obtain ⟨hnp, hnc, hdisj⟩ := List.nodup_append.mp hnd
    have hpost : ∀ x ∈ post, x.base ≠ e.base := by
      intro x hx h
      exact (List.nodup_cons.mp hnc).1 (h ▸ List.mem_map_of_mem Info.base hx)
    have hpre : ∀ x ∈ pre, x.base ≠ e.base := by
      intro x hx h
      exact hdisj (h ▸ List.mem_map_of_mem Info.base hx) (List.mem_cons_self _ _)
    rw [hdrPass_eq]
    exact gPass_no_singleton _ _ _ _ hhdr rfl hpre hpost hsucc
  · intro fpre e fpost hsplit hburst hsucc
    have hefilter : e ∈ info.filter fun x => (lookupSeq (hdrPass info) x.base).isNone := by
      rw [hsplit]
      exact List.mem_append_right _ (List.mem_cons_self _ _)
    have hm0 : lookupSeq (hdrPass info) e.base = none := by
      have hmem := List.of_mem_filter hefilter
      cases h : lookupSeq (hdrPass info) e.base
      · rfl
      · rw [h] at hmem
        exact absurd hmem (by simp)
    have hndf : ((info.filter fun x =>
        (lookupSeq (hdrPass info) x.base).isNone).map Info.base).Nodup :=
      List.Nodup.sublist (List.Sublist.map Info.base (List.filter_sublist info)) hnd
    rw [hsplit, List.map_append, List.map_cons] at hndf
    obtain ⟨hnp, hnc, hdisj⟩ := List.nodup_append.mp hndf
    have hpost : ∀ x ∈ fpost, x.base ≠ e.base := by
      intro x hx h
      exact (List.nodup_cons.mp hnc).1 (h ▸ List.mem_map_of_mem Info.base hx)
    have hpre : ∀ x ∈ fpre, x.base ≠ e.base := by
      intro x hx h
      exact hdisj (h ▸ List.mem_map_of_mem Info.base hx) (List.mem_cons_self _ _)
    rw [burstPass_eq_filter hnd, hsplit]
    apply gPass_no_singleton
    · unfold burstOrd
      rw [hburst]
      decide
    · exact hm0
    · exact hpre
    · exact hpost
    · intro x hx
      have hxb := hsucc x hx
      unfold burstOrd
      split
      · simp
      · intro hcontra
        exact hxb (Option.some.inj hcontra)

/-- C6 witness: a single unit with HDR ordinal 1 and burst ordinal 1 at the
end of the list receives no tag from either pass. -/
theorem C6_no_singleton_runs_witness :
    lookupSeq (hdrPass [⟨"A", 1, some 1, ⟨2024, 1, 5, 10, 0, 0⟩⟩]) "A" = none ∧
    lookupSeq (burstPass [⟨"A", 1, some 1, ⟨2024, 1, 5, 10, 0, 0⟩⟩]
      (hdrPass [⟨"A", 1, some 1, ⟨2024, 1, 5, 10, 0, 0⟩⟩])) "A" = none :=
  ⟨(C6_no_singleton_runs [⟨"A", 1, some 1, ⟨2024, 1, 5, 10, 0, 0⟩⟩] (by decide)).1
      [] ⟨"A", 1, some 1, ⟨2024, 1, 5, 10, 0, 0⟩⟩ [] rfl rfl (fun x h => nomatch h),
   (C6_no_singleton_runs [⟨"A", 1, some 1, ⟨2024, 1, 5, 10, 0, 0⟩⟩] (by decide)).2
      [] ⟨"A", 1, some 1, ⟨2024, 1, 5, 10, 0, 0⟩⟩ [] (by decide) rfl
      (fun x h => nomatch h)⟩

/-- C6 counterexample: the claim as stated fails. In the sorted input
`A (burst 1), B (burst 2), C (burst 3, HDR ordinal 1)` the unit `C` has
HDR ordinal 1 and no following unit at all, yet it receives a
`SequenceTag`: the burst pass tags it `Burst "A_BURST"`. -/
theorem C6_singleton_tagged_counterexample :
    sortInfo [⟨"A", 1, none, ⟨2024, 1, 5, 10, 0, 0⟩⟩,
              ⟨"B", 2, none, ⟨2024, 1, 5, 10, 0, 1⟩⟩,
              ⟨"C", 3, some 1, ⟨2024, 1, 5, 10, 0, 2⟩⟩]
      = [⟨"A", 1, none, ⟨2024, 1, 5, 10, 0, 0⟩⟩,
         ⟨"B", 2, none, ⟨2024, 1, 5, 10, 0, 1⟩⟩,
         ⟨"C", 3, some 1, ⟨2024, 1, 5, 10, 0, 2⟩⟩] ∧
    (⟨"C", 3, some 1, ⟨2024, 1, 5, 10, 0, 2⟩⟩ : Info).hdr = some 1 ∧
    lookupSeq (burstPass
      [⟨"A", 1, none, ⟨2024, 1, 5, 10, 0, 0⟩⟩,
       ⟨"B", 2, none, ⟨2024, 1, 5, 10, 0, 1⟩⟩,
       ⟨"C", 3, some 1, ⟨2024, 1, 5, 10, 0, 2⟩⟩]
      (hdrPass
        [⟨"A", 1, none, ⟨2024, 1, 5, 10, 0, 0⟩⟩,
         ⟨"B", 2, none, ⟨2024, 1, 5, 10, 0, 1⟩⟩,
         ⟨"C", 3, some 1, ⟨2024, 1, 5, 10, 0, 2⟩⟩])) "C"
      = some (SequenceType.Burst "A_BURST") := by
  refine ⟨by decide, rfl, by decide⟩

/-! ## Claim C7: sort order and the missing-time fallback -/

/-- C7 (amended): before sequence detection, units are sorted by
(capture time, unit key); a unit whose cached metadata yields no valid
capture time gets the current time `now` as its sort key; and in the sorted
list no unit dated `now` ever precedes a unit whose resolved capture time is
strictly earlier than `now`. (The claim's stronger "such units sort last —
after every unit that has a resolved capture time" fails, because the
year-sanity guard admits dates up to 2050, which may lie after the current
time; see the counterexample.) -/
theorem C7_missing_time_fallback (groups : List (String × List Path))
    (exif_cache : String → Option (Path × Exif)) (now : DateTime) :
    List.Sorted infoLe (sortInfo (photoInfo groups exif_cache now))
    ∧ (∀ e ∈ photoInfo groups exif_cache now, ∀ p exif,
        exif_cache e.base = some (p, exif) → get_exif_date exif = none → e.date = now)
    ∧ (∀ i j : Fin (sortInfo (photoInfo groups exif_cache now)).length,
        (i : Nat) < (j : Nat) →
        ((sortInfo (photoInfo groups exif_cache now)).get i).date = now →
        dtCmp ((sortInfo (photoInfo groups exif_cache now)).get j).date now = .lt →
        False) := by
  have hsorted : List.Sorted infoLe (sortInfo (photoInfo groups exif_cache now)) := by
    haveI h1 : IsTotal Info infoLe := ⟨infoLe_total⟩
    haveI h2 : IsTrans Info infoLe := ⟨fun a b c => infoLe_trans⟩
    exact List.sorted_insertionSort infoLe _
  refine ⟨hsorted, ?_, ?_⟩
  · intro e he p exif hc hnone
    obtain ⟨g, hg, hsome⟩ := List.mem_filterMap.mp he
    by_cases hph : (g.2.filter isPhotoPath) ≠ []
    · rw [if_pos hph] at hsome
      cases hcg : exif_cache g.1 with
      | none =>
        rw [hcg] at hsome
        exact absurd hsome (by simp)
      | some pe =>
        obtain ⟨p2, exif2⟩ := pe
        rw [hcg] at hsome
        obtain rfl := Option.some.inj hsome
        have heq : (some (p, exif) : Option (Path × Exif)) = some (p2, exif2) :=
          hc.symm.trans hcg
        obtain ⟨-, rfl⟩ : p = p2 ∧ exif = exif2 := by
          injection heq with h3
          exact ⟨congrArg Prod.fst h3, congrArg Prod.snd h3⟩
        show (get_exif_date exif).getD now = now
        rw [hnone]
        rfl
    · rw [if_neg hph] at hsome
      exact absurd hsome (by simp)
  · intro i j hij hi hj
    have hpair := (List.pairwise_iff_get.mp hsorted) i j hij
    rw [infoLe_iff] at hpair
    rcases hpair with h | ⟨hd, -⟩
    · rw [hi] at h
      have hsw : dtCmp now ((sortInfo (photoInfo groups exif_cache now)).get j).date
          = (dtCmp ((sortInfo (photoInfo groups exif_cache now)).get j).date now).swap :=
        dtCmp_swap _ _
      rw [hj] at hsw
      exact absurd (h.symm.trans hsw) (by decide)
    · rw [← hd, hi] at hj
      have heqc : dtCmp now now = .eq := dtCmp_eq_iff.mpr rfl
      exact absurd (heqc.symm.trans hj) (by decide)

/-- C7 witness: a cached record with no `DateTimeOriginal` yields no capture
time, so its unit's sort key is the current time. -/
theorem C7_missing_time_fallback_witness :
    (⟨"B", 0, none, ⟨2026, 10, 12, 0, 0, 0⟩⟩ : Info).date = ⟨2026, 10, 12, 0, 0, 0⟩ :=
  (C7_missing_time_fallback [("B", [["in", "B.jpg"]])]
      (fun b => if b = "B" then some (["in", "B.jpg"], ⟨none, none, none⟩) else none)
      ⟨2026, 10, 12, 0, 0, 0⟩).2.1
    ⟨"B", 0, none, ⟨2026, 10, 12, 0, 0, 0⟩⟩ (by decide)
    ["in", "B.jpg"] ⟨none, none, none⟩ (by decide) (by decide)

/-- C7 counterexample: units with no valid capture time do *not* always sort
last. With the current time 2026-10-12, unit `A` carries the valid EXIF date
2049-01-01 (accepted by the year guard, which allows up to 2050) while unit
`B` has no date and falls back to `now`; in the sorted list `B` comes
*before* `A` although `A` has a resolved capture time. -/
theorem C7_missing_time_counterexample :
    sortInfo (photoInfo
      [("A", [["in", "A.jpg"]]), ("B", [["in", "B.jpg"]])]
      (fun b =>
        if b = "A" then
          some (["in", "A.jpg"], ⟨some "2049:01:01 00:00:00", none, none⟩)
        else if b = "B" then
          some (["in", "B.jpg"], ⟨none, none, none⟩)
        else none)
      ⟨2026, 10, 12, 0, 0, 0⟩)
      = [⟨"B", 0, none, ⟨2026, 10, 12, 0, 0, 0⟩⟩,
         ⟨"A", 0, none, ⟨2049, 1, 1, 0, 0, 0⟩⟩] ∧
    get_exif_date ⟨none, none, none⟩ = none ∧
    get_exif_date ⟨some "2049:01:01 00:00:00", none, none⟩
      = some ⟨2049, 1, 1, 0, 0, 0⟩ := by
  refine ⟨by decide, rfl, by decide⟩

/-! ## Helper lemmas about the planner -/

instance {ε α : Type} [DecidableEq ε] [DecidableEq α] : DecidableEq (Except ε α) :=
  fun a b =>
    match a, b with
    | .error e1, .error e2 =>
      if h : e1 = e2 then isTrue (by rw [h]) else isFalse (by simp [h])
    | .error _, .ok _ => isFalse (by simp)
    | .ok _, .error _ => isFalse (by simp)
    | .ok a1, .ok a2 =>
      if h : a1 = a2 then isTrue (by rw [h]) else isFalse (by simp [h])

theorem validate_eq (fs : FS) (output_dir : Path) (groups : List (String × List Path))
    (sequences : SeqMap) (exif_cache : String → Option (Path × Exif))
    (cutoff_date : Option DateTime) :
    validate_and_plan_copy fs output_dir groups sequences exif_cache cutoff_date =
      if ((groups.map fun g => planUnit fs (output_dir ++ ["RAW"]) (output_dir ++ ["JPEG"])
            sequences exif_cache cutoff_date g.1 g.2).map Prod.fst).flatten = []
      then .ok (sortPlan ((groups.map fun g => planUnit fs (output_dir ++ ["RAW"])
            (output_dir ++ ["JPEG"]) sequences exif_cache cutoff_date g.1 g.2).map
              Prod.snd).flatten)
      else .error ((groups.map fun g => planUnit fs (output_dir ++ ["RAW"])
            (output_dir ++ ["JPEG"]) sequences exif_cache cutoff_date g.1 g.2).map
              Prod.fst).flatten := rfl

theorem planFile_ok_eq {fs : FS} {raw_dir jpeg_dir dtb : Path} {ymd : List String}
    {sf : Option String} {f : Path} {pr : Path × Path}
    (h : planFile fs raw_dir jpeg_dir dtb ymd sf f = .ok pr) :
    pr = (f, destFor raw_dir jpeg_dir dtb ymd sf f) := by
  unfold planFile at h
  rcases hm : fs.meta f with _ | md <;> rw [hm] at h
  · simp at h
  · rcases hif : md.isFile <;> simp only [hif] at h
    · simp at h
    · by_cases hex : fsExists fs (destFor raw_dir jpeg_dir dtb ymd sf f) = true
      · simp [hex] at h
      · simp only [Bool.not_eq_true] at hex
        simp only [hex, Bool.false_eq_true, if_false, if_true, Except.ok.injEq] at h
        exact h.symm

theorem planUnit_eq_of_ok {fs : FS} {raw_dir jpeg_dir : Path} {sequences : SeqMap}
    {exif_cache : String → Option (Path × Exif)} {cutoff_date : Option DateTime}
    {base : String} {fl : List Path} {pf : Path} {d : DateTime}
    (hres : resolveUnitDate fs exif_cache base fl = some (.ok (pf, d)))
    (hskip : cutoffSkip cutoff_date d = false) :
    planUnit fs raw_dir jpeg_dir sequences exif_cache cutoff_date base fl =
      ((fl.map (planFile fs raw_dir jpeg_dir (unitDefaultBase raw_dir jpeg_dir pf)
          (unitYmd d) (unitSeqFolder sequences base))).filterMap
        (fun r => match r with | .error e => some e | .ok _ => none),
       (fl.map (planFile fs raw_dir jpeg_dir (unitDefaultBase raw_dir jpeg_dir pf)
          (unitYmd d) (unitSeqFolder sequences base))).filterMap
        (fun r => match r with | .ok pr => some pr | .error _ => none)) := by
  unfold planUnit
  rw [hres]
  simp [hskip]

theorem planUnit_eq_of_skip {fs : FS} {raw_dir jpeg_dir : Path} {sequences : SeqMap}
    {exif_cache : String → Option (Path × Exif)} {cutoff_date : Option DateTime}
    {base : String} {fl : List Path} {pf : Path} {d : DateTime}
    (hres : resolveUnitDate fs exif_cache base fl = some (.ok (pf, d)))
    (hskip : cutoffSkip cutoff_date d = true) :
    planUnit fs raw_dir jpeg_dir sequences exif_cache cutoff_date base fl = ([], []) := by
  unfold planUnit
  rw [hres]
  simp [hskip]

theorem validate_error_of_planUnit_error {fs : FS} {output_dir : Path}
    {groups : List (String × List Path)} {sequences : SeqMap}
    {exif_cache : String → Option (Path × Exif)} {cutoff_date : Option DateTime}
    {base : String} {fl : List Path} {e : ValidationError}
    (hg : (base, fl) ∈ groups)
    (he : e ∈ (planUnit fs (output_dir ++ ["RAW"]) (output_dir ++ ["JPEG"]) sequences
        exif_cache cutoff_date base fl).1) :
    ∃ errs, validate_and_plan_copy fs output_dir groups sequences exif_cache cutoff_date
        = .error errs ∧ e ∈ errs := by
  have hmem : e ∈ ((groups.map fun g => planUnit fs (output_dir ++ ["RAW"])
      (output_dir ++ ["JPEG"]) sequences exif_cache cutoff_date g.1 g.2).map
        Prod.fst).flatten := by
    rw [List.mem_flatten]
    exact ⟨_, List.mem_map_of_mem _ (List.mem_map_of_mem _ hg), he⟩
  have hne : ((groups.map fun g => planUnit fs (output_dir ++ ["RAW"])
      (output_dir ++ ["JPEG"]) sequences exif_cache cutoff_date g.1 g.2).map
        Prod.fst).flatten ≠ [] := by
    intro hnil
    rw [hnil] at hmem
    exact absurd hmem (List.not_mem_nil e)
  refine ⟨_, ?_, hmem⟩
  simp only [validate_and_plan_copy, if_neg hne]

/-! ## Claim C1: planner totality -/

/-- C1: for every input, the planner returns exactly one of a complete plan
(covering every file of every unit that resolves a date and is not skipped
by the cutoff, with no recorded error) or a non-empty error list — the
`Except` result is never both and never neither. The hypothesis that units
are non-empty records the Rust function's domain: grouping only ever
creates non-empty units, and `&file_list[0]` would panic on an empty one. -/
theorem C1_planner_totality (fs : FS) (output_dir : Path)
    (groups : List (String × List Path)) (sequences : SeqMap)
    (exif_cache : String → Option (Path × Exif)) (cutoff_date : Option DateTime)
    (_hunits : ∀ g ∈ groups, g.2 ≠ ([] : List Path)) :
    (∃ plan, validate_and_plan_copy fs output_dir groups sequences exif_cache cutoff_date
        = .ok plan ∧
      ∀ base fl, (base, fl) ∈ groups →
        ∀ pf d, resolveUnitDate fs exif_cache base fl = some (.ok (pf, d)) →
          cutoffSkip cutoff_date d = false →
          ∀ f ∈ fl, ∃ dest, (f, dest) ∈ plan)
    ∨ (∃ errs, validate_and_plan_copy fs output_dir groups sequences exif_cache cutoff_date
        = .error errs ∧ errs ≠ []) := by
  by_cases herr : ((groups.map fun g => planUnit fs (output_dir ++ ["RAW"])
      (output_dir ++ ["JPEG"]) sequences exif_cache cutoff_date g.1 g.2).map
        Prod.fst).flatten = []
  · left
    refine ⟨sortPlan ((groups.map fun g => planUnit fs (output_dir ++ ["RAW"])
        (output_dir ++ ["JPEG"]) sequences exif_cache cutoff_date g.1 g.2).map
          Prod.snd).flatten, ?_, ?_⟩
    · rw [validate_eq, if_pos herr]
    · intro base fl hg pf d hres hskip f hf
      have h1 : (planUnit fs (output_dir ++ ["RAW"]) (output_dir ++ ["JPEG"]) sequences
          exif_cache cutoff_date base fl).1 = [] :=
        (List.flatten_eq_nil_iff.mp herr) _
          (List.mem_map_of_mem _ (List.mem_map_of_mem _ hg))
      rw [planUnit_eq_of_ok hres hskip] at h1
      have h1' : (fl.map (planFile fs (output_dir ++ ["RAW"]) (output_dir ++ ["JPEG"])
          (unitDefaultBase (output_dir ++ ["RAW"]) (output_dir ++ ["JPEG"]) pf)
          (unitYmd d) (unitSeqFolder sequences base))).filterMap
            (fun r => match r with | .error e => some e | .ok _ => none) = [] := h1
      rcases hcase : planFile fs (output_dir ++ ["RAW"]) (output_dir ++ ["JPEG"])
          (unitDefaultBase (output_dir ++ ["RAW"]) (output_dir ++ ["JPEG"]) pf)
          (unitYmd d) (unitSeqFolder sequences base) f with e | pr
      · exfalso
        have hmem : e ∈ (fl.map (planFile fs (output_dir ++ ["RAW"])
            (output_dir ++ ["JPEG"]) (unitDefaultBase (output_dir ++ ["RAW"])
            (output_dir ++ ["JPEG"]) pf) (unitYmd d)
            (unitSeqFolder sequences base))).filterMap
              (fun r => match r with | .error e => some e | .ok _ => none) :=
          List.mem_filterMap.mpr ⟨_, List.mem_map_of_mem _ hf, by rw [hcase]⟩
        rw [h1'] at hmem
        exact List.not_mem_nil e hmem
      · obtain rfl : pr = (f, destFor (output_dir ++ ["RAW"]) (output_dir ++ ["JPEG"])
            (unitDefaultBase (output_dir ++ ["RAW"]) (output_dir ++ ["JPEG"]) pf)
            (unitYmd d) (unitSeqFolder sequences base) f) := planFile_ok_eq hcase
        refine ⟨destFor (output_dir ++ ["RAW"]) (output_dir ++ ["JPEG"])
          (unitDefaultBase (output_dir ++ ["RAW"]) (output_dir ++ ["JPEG"]) pf)
          (unitYmd d) (unitSeqFolder sequences base) f, ?_⟩
        apply (List.perm_insertionSort planEntryLe _).mem_iff.mpr
        apply List.mem_flatten.mpr
        refine ⟨(planUnit fs (output_dir ++ ["RAW"]) (output_dir ++ ["JPEG"]) sequences
            exif_cache cutoff_date base fl).2,
          List.mem_map_of_mem _ (List.mem_map_of_mem _ hg), ?_⟩
        rw [planUnit_eq_of_ok hres hskip]
        exact List.mem_filterMap.mpr ⟨_, List.mem_map_of_mem _ hf, by rw [hcase]⟩
  · right
    exact ⟨_, by rw [validate_eq, if_neg herr], herr⟩

/-- C1 witness: a one-unit input with a readable source file and no
destination conflicts satisfies the totality statement. -/
theorem C1_planner_totality_witness :
    (∃ plan, validate_and_plan_copy
        ⟨fun q => if q = ["in", "A.jpg"] then some ⟨true, some ⟨2024, 1, 5, 10, 0, 0⟩⟩
                  else none⟩
        ["out"] [("A", [["in", "A.jpg"]])] [] (fun _ => none) none = .ok plan ∧
      ∀ base fl, (base, fl) ∈ [("A", [["in", "A.jpg"]])] →
        ∀ pf d, resolveUnitDate
            ⟨fun q => if q = ["in", "A.jpg"] then some ⟨true, some ⟨2024, 1, 5, 10, 0, 0⟩⟩
                      else none⟩
            (fun _ => none) base fl = some (.ok (pf, d)) →
          cutoffSkip none d = false →
          ∀ f ∈ fl, ∃ dest, (f, dest) ∈ plan)
    ∨ (∃ errs, validate_and_plan_copy
        ⟨fun q => if q = ["in", "A.jpg"] then some ⟨true, some ⟨2024, 1, 5, 10, 0, 0⟩⟩
                  else none⟩
        ["out"] [("A", [["in", "A.jpg"]])] [] (fun _ => none) none = .error errs ∧
      errs ≠ []) :=
  C1_planner_totality
    ⟨fun q => if q = ["in", "A.jpg"] then some ⟨true, some ⟨2024, 1, 5, 10, 0, 0⟩⟩
              else none⟩
    ["out"] [("A", [["in", "A.jpg"]])] [] (fun _ => none) none (by decide)

/-! ## Claim C2: no silent overwrite -/

/-- C2: when a unit resolves a date, is not skipped by the cutoff, and one of
its files passes the source check but its computed destination already
exists on disk, the planner returns the error set (so no plan is returned at
all), and that set contains the conflict error naming the source file. -/
theorem C2_no_silent_overwrite (fs : FS) (output_dir : Path)
    (groups : List (String × List Path)) (sequences : SeqMap)
    (exif_cache : String → Option (Path × Exif)) (cutoff_date : Option DateTime)
    (base : String) (fl : List Path) (f pf : Path) (d : DateTime) (md : FMeta)
    (hg : (base, fl) ∈ groups) (hf : f ∈ fl)
    (hres : resolveUnitDate fs exif_cache base fl = some (.ok (pf, d)))
    (hskip : cutoffSkip cutoff_date d = false)
    (hmeta : fs.meta f = some md) (hfile : md.isFile = true)
    (hex : fsExists fs (destFor (output_dir ++ ["RAW"]) (output_dir ++ ["JPEG"])
        (unitDefaultBase (output_dir ++ ["RAW"]) (output_dir ++ ["JPEG"]) pf)
        (unitYmd d) (unitSeqFolder sequences base) f) = true) :
    ∃ errs, validate_and_plan_copy fs output_dir groups sequences exif_cache cutoff_date
        = .error errs ∧
      (⟨display f, "Destination already exists: " ++ display
          (destFor (output_dir ++ ["RAW"]) (output_dir ++ ["JPEG"])
            (unitDefaultBase (output_dir ++ ["RAW"]) (output_dir ++ ["JPEG"]) pf)
            (unitYmd d) (unitSeqFolder sequences base) f)⟩ : ValidationError) ∈ errs := by
  have hpf : planFile fs (output_dir ++ ["RAW"]) (output_dir ++ ["JPEG"])
      (unitDefaultBase (output_dir ++ ["RAW"]) (output_dir ++ ["JPEG"]) pf)
      (unitYmd d) (unitSeqFolder sequences base) f
      = .error ⟨display f, "Destination already exists: " ++ display
          (destFor (output_dir ++ ["RAW"]) (output_dir ++ ["JPEG"])
            (unitDefaultBase (output_dir ++ ["RAW"]) (output_dir ++ ["JPEG"]) pf)
            (unitYmd d) (unitSeqFolder sequences base) f)⟩ := by
    unfold planFile
    rw [hmeta]
    simp [hfile, hex]
  have he : (⟨display f, "Destination already exists: " ++ display
      (destFor (output_dir ++ ["RAW"]) (output_dir ++ ["JPEG"])
        (unitDefaultBase (output_dir ++ ["RAW"]) (output_dir ++ ["JPEG"]) pf)
        (unitYmd d) (unitSeqFolder sequences base) f)⟩ : ValidationError)
      ∈ (planUnit fs (output_dir ++ ["RAW"]) (output_dir ++ ["JPEG"]) sequences
          exif_cache cutoff_date base fl).1 := by
    rw [planUnit_eq_of_ok hres hskip]
    exact List.mem_filterMap.mpr ⟨_, List.mem_map_of_mem _ hf, by rw [hpf]⟩
  exact validate_error_of_planUnit_error hg he

/-- C2 witness: a concrete run in which the destination of `in/IMG1.jpg`
already exists, so the planner returns the error set containing the
conflict error for that file. -/
theorem C2_no_silent_overwrite_witness :
    ∃ errs, validate_and_plan_copy
        ⟨fun q => if q = ["in", "IMG1.jpg"] then some ⟨true, some ⟨2024, 1, 5, 10, 0, 0⟩⟩
                  else if q = ["out", "JPEG", "2024", "01", "05", "IMG1.jpg"] then
                    some ⟨true, none⟩
                  else none⟩
        ["out"] [("IMG1", [["in", "IMG1.jpg"]])] [] (fun _ => none) none
        = .error errs ∧
      (⟨display ["in", "IMG1.jpg"], "Destination already exists: " ++ display
          (destFor (["out"] ++ ["RAW"]) (["out"] ++ ["JPEG"])
            (unitDefaultBase (["out"] ++ ["RAW"]) (["out"] ++ ["JPEG"]) ["in", "IMG1.jpg"])
            (unitYmd ⟨2024, 1, 5, 10, 0, 0⟩) (unitSeqFolder [] "IMG1")
            ["in", "IMG1.jpg"])⟩ : ValidationError) ∈ errs :=
  C2_no_silent_overwrite
    ⟨fun q => if q = ["in", "IMG1.jpg"] then some ⟨true, some ⟨2024, 1, 5, 10, 0, 0⟩⟩
              else if q = ["out", "JPEG", "2024", "01", "05", "IMG1.jpg"] then
                some ⟨true, none⟩
              else none⟩
    ["out"] [("IMG1", [["in", "IMG1.jpg"]])] [] (fun _ => none) none
    "IMG1" [["in", "IMG1.jpg"]] ["in", "IMG1.jpg"] ["in", "IMG1.jpg"]
    ⟨2024, 1, 5, 10, 0, 0⟩ ⟨true, some ⟨2024, 1, 5, 10, 0, 0⟩⟩
    (by decide) (by decide) (by decide) (by decide) (by decide) (by decide) (by decide)

/-! ## Claim C9: cutoff handling -/

/-- C9: a unit whose resolved date is at or before the configured cutoff is
omitted entirely — removing it from the input leaves the planner's result
unchanged, so it contributes neither plan entries nor errors; and for a unit
dated strictly after the cutoff the cutoff has no effect on the unit's
processing. -/
theorem C9_cutoff_omits_unit (fs : FS) (output_dir : Path)
    (g1 g2 : List (String × List Path)) (base : String) (fl : List Path)
    (sequences : SeqMap) (exif_cache : String → Option (Path × Exif))
    (c : DateTime) (pf : Path) (d : DateTime)
    (hres : resolveUnitDate fs exif_cache base fl = some (.ok (pf, d))) :
    (dtLe d c = true →
      validate_and_plan_copy fs output_dir (g1 ++ (base, fl) :: g2) sequences exif_cache
          (some c)
        = validate_and_plan_copy fs output_dir (g1 ++ g2) sequences exif_cache (some c))
    ∧ (dtLe d c = false →
      planUnit fs (output_dir ++ ["RAW"]) (output_dir ++ ["JPEG"]) sequences exif_cache
          (some c) base fl
        = planUnit fs (output_dir ++ ["RAW"]) (output_dir ++ ["JPEG"]) sequences exif_cache
          none base fl) := by
  constructor
  · intro hle
    have hu : planUnit fs (output_dir ++ ["RAW"]) (output_dir ++ ["JPEG"]) sequences
        exif_cache (some c) base fl = ([], []) :=
      planUnit_eq_of_skip hres (by simp [cutoffSkip, hle])
    have hE : ((((g1 ++ (base, fl) :: g2).map fun g => planUnit fs (output_dir ++ ["RAW"])
          (output_dir ++ ["JPEG"]) sequences exif_cache (some c) g.1 g.2).map
            Prod.fst).flatten : List ValidationError)
        = (((g1 ++ g2).map fun g => planUnit fs (output_dir ++ ["RAW"])
          (output_dir ++ ["JPEG"]) sequences exif_cache (some c) g.1 g.2).map
            Prod.fst).flatten := by
      simp [List.map_append, List.flatten_append, hu]
    have hP : ((((g1 ++ (base, fl) :: g2).map fun g => planUnit fs (output_dir ++ ["RAW"])
          (output_dir ++ ["JPEG"]) sequences exif_cache (some c) g.1 g.2).map
            Prod.snd).flatten : List (Path × Path))
        = (((g1 ++ g2).map fun g => planUnit fs (output_dir ++ ["RAW"])
          (output_dir ++ ["JPEG"]) sequences exif_cache (some c) g.1 g.2).map
            Prod.snd).flatten := by
      simp [List.map_append, List.flatten_append, hu]
    rw [validate_eq, validate_eq, hE, hP]
  · intro hgt
    have h1 : cutoffSkip (some c) d = false := by simp [cutoffSkip, hgt]
    have h2 : cutoffSkip none d = false := rfl
    unfold planUnit
    rw [hres]
    simp only [h1, h2]

/-- C9 witness: with cutoff 2024-01-05T12:00:00Z, a unit dated
2024-01-05T11:00:00Z is removed from the result without a trace. -/
theorem C9_cutoff_omits_unit_witness :
    validate_and_plan_copy
        ⟨fun q => if q = ["in", "IMG1.jpg"] then some ⟨true, some ⟨2024, 1, 5, 10, 0, 0⟩⟩
                  else none⟩
        ["out"] ([] ++ ("IMG1", [["in", "IMG1.jpg"]]) :: [])
        [] (fun b => if b = "IMG1" then
              some (["in", "IMG1.jpg"], ⟨some "2024:01:05 11:00:00", none, none⟩)
            else none)
        (some ⟨2024, 1, 5, 12, 0, 0⟩)
      = validate_and_plan_copy
        ⟨fun q => if q = ["in", "IMG1.jpg"] then some ⟨true, some ⟨2024, 1, 5, 10, 0, 0⟩⟩
                  else none⟩
        ["out"] ([] ++ [])
        [] (fun b => if b = "IMG1" then
              some (["in", "IMG1.jpg"], ⟨some "2024:01:05 11:00:00", none, none⟩)
            else none)
        (some ⟨2024, 1, 5, 12, 0, 0⟩) :=
  (C9_cutoff_omits_unit
    ⟨fun q => if q = ["in", "IMG1.jpg"] then some ⟨true, some ⟨2024, 1, 5, 10, 0, 0⟩⟩
              else none⟩
    ["out"] [] [] "IMG1" [["in", "IMG1.jpg"]]
    [] (fun b => if b = "IMG1" then
          some (["in", "IMG1.jpg"], ⟨some "2024:01:05 11:00:00", none, none⟩)
        else none)
    ⟨2024, 1, 5, 12, 0, 0⟩ ["in", "IMG1.jpg"] ⟨2024, 1, 5, 11, 0, 0⟩
    (by decide)).1 (by decide)

/-! ## Claim C3: distinct destinations in a successful plan -/

theorem mem_planUnit_snd_dest {fs : FS} {raw_dir jpeg_dir : Path} {sequences : SeqMap}
    {exif_cache : String → Option (Path × Exif)} {cutoff_date : Option DateTime}
    {base : String} {fl : List Path} {s d : Path}
    (h : (s, d) ∈ (planUnit fs raw_dir jpeg_dir sequences exif_cache cutoff_date
      base fl).2) :
    ∃ pre, d = pre ++ [(fileName s).getD ""] := by
  unfold planUnit at h
  cases hres : resolveUnitDate fs exif_cache base fl with
  | none => rw [hres] at h; simp at h
  | some r =>
    rw [hres] at h
    cases r with
    | error e => simp at h
    | ok pd =>
      obtain ⟨pf, dd⟩ := pd
      by_cases hskip : cutoffSkip cutoff_date dd = true
      · simp [hskip] at h
      · simp only [Bool.not_eq_true] at hskip
        simp only [hskip, Bool.false_eq_true, if_false] at h
        obtain ⟨r, hr, hproj⟩ := List.mem_filterMap.mp h
        obtain ⟨f, hfmem, rfl⟩ := List.mem_map.mp hr
        cases hc : planFile fs raw_dir jpeg_dir
            (unitDefaultBase raw_dir jpeg_dir pf) (unitYmd dd)
            (unitSeqFolder sequences base) f with
        | error e => rw [hc] at hproj; simp at hproj
        | ok pr =>
          rw [hc] at hproj
          simp only [Option.some.injEq] at hproj
          have hshape := planFile_ok_eq hc
          rw [hproj] at hshape
          obtain ⟨hs, hd⟩ := Prod.mk.injEq .. ▸ hshape
          subst hs
          refine ⟨determine_target_base ((fileName s).getD "") raw_dir jpeg_dir
            (unitDefaultBase raw_dir jpeg_dir pf) ++ unitYmd dd ++
            (match unitSeqFolder sequences base with | some x => [x] | none => []), ?_⟩
          rw [hd]
          rfl

/-- C3 (amended): in a successfully returned plan, any two entries whose
source files have distinct *filenames* have distinct destination paths.
(The claim as stated — for any two distinct source files — fails: the
conflict check only compares against the disk, so two sources with the same
filename in different directories collide; see the counterexample.) -/
theorem C3_distinct_destinations (fs : FS) (output_dir : Path)
    (groups : List (String × List Path)) (sequences : SeqMap)
    (exif_cache : String → Option (Path × Exif)) (cutoff_date : Option DateTime)
    (plan : List (Path × Path))
    (hok : validate_and_plan_copy fs output_dir groups sequences exif_cache cutoff_date
      = .ok plan)
    (s1 d1 s2 d2 : Path) (h1 : (s1, d1) ∈ plan) (h2 : (s2, d2) ∈ plan)
    (hne : (fileName s1).getD "" ≠ (fileName s2).getD "") : d1 ≠ d2 := by
  rw [validate_eq] at hok
  split at hok
  case isFalse => exact absurd hok (by simp)
  case isTrue herr =>
    have hplan : plan = sortPlan ((groups.map fun g => planUnit fs (output_dir ++ ["RAW"])
        (output_dir ++ ["JPEG"]) sequences exif_cache cutoff_date g.1 g.2).map
          Prod.snd).flatten := (Except.ok.inj hok).symm
    subst hplan
    have hmem1 := (List.perm_insertionSort planEntryLe _).mem_iff.mp h1
    have hmem2 := (List.perm_insertionSort planEntryLe _).mem_iff.mp h2
    obtain ⟨l1, hl1, hin1⟩ := List.mem_flatten.mp hmem1
    obtain ⟨g1, hg1, rfl⟩ := List.mem_map.mp hl1
    obtain ⟨u1, hu1, rfl⟩ := List.mem_map.mp hg1
    obtain ⟨pre1, hpre1⟩ := mem_planUnit_snd_dest hin1
    obtain ⟨l2, hl2, hin2⟩ := List.mem_flatten.mp hmem2
    obtain ⟨g2, hg2, rfl⟩ := List.mem_map.mp hl2
    obtain ⟨u2, hu2, rfl⟩ := List.mem_map.mp hg2
    obtain ⟨pre2, hpre2⟩ := mem_planUnit_snd_dest hin2
    intro hdd
    rw [hpre1, hpre2] at hdd
    have hlast := congrArg List.getLast? hdd
    rw [List.getLast?_concat, List.getLast?_concat] at hlast
    exact hne (Option.some.inj hlast)

/-- C3 witness: two sources with different filenames in one unit receive
different destinations in the returned plan. -/
theorem C3_distinct_destinations_witness :
    (["out", "RAW", "2024", "01", "05", "IMG1.CR2"] : Path)
      ≠ ["out", "JPEG", "2024", "01", "05", "IMG1.jpg"] :=
  C3_distinct_destinations
    ⟨fun q => if q = ["in", "IMG1.CR2"] ∨ q = ["in", "IMG1.jpg"]
              then some ⟨true, some ⟨2024, 1, 5, 10, 0, 0⟩⟩ else none⟩
    ["out"] [("IMG1", [["in", "IMG1.CR2"], ["in", "IMG1.jpg"]])] []
    (fun _ => none) none
    [(["in", "IMG1.CR2"], ["out", "RAW", "2024", "01", "05", "IMG1.CR2"]),
     (["in", "IMG1.jpg"], ["out", "JPEG", "2024", "01", "05", "IMG1.jpg"])]
    (by rfl)
    ["in", "IMG1.CR2"] ["out", "RAW", "2024", "01", "05", "IMG1.CR2"]
    ["in", "IMG1.jpg"] ["out", "JPEG", "2024", "01", "05", "IMG1.jpg"]
    (by decide) (by decide) (by decide)

/-- C3 counterexample: the claim as stated fails. Two distinct source files
with the same filename in different directories belong to one unit and are
both planned onto the same destination — the conflict check only tests the
disk, not the plan itself. -/
theorem C3_same_destination_counterexample :
    validate_and_plan_copy
      ⟨fun q => if q = ["in", "a", "IMG1.jpg"] ∨ q = ["in", "b", "IMG1.jpg"]
                then some ⟨true, some ⟨2024, 1, 5, 10, 0, 0⟩⟩ else none⟩
      ["out"] [("IMG1", [["in", "a", "IMG1.jpg"], ["in", "b", "IMG1.jpg"]])] []
      (fun _ => none) none
      = .ok [(["in", "a", "IMG1.jpg"], ["out", "JPEG", "2024", "01", "05", "IMG1.jpg"]),
             (["in", "b", "IMG1.jpg"], ["out", "JPEG", "2024", "01", "05", "IMG1.jpg"])] ∧
    (["in", "a", "IMG1.jpg"] : Path) ≠ ["in", "b", "IMG1.jpg"] :=
  ⟨by rfl, by decide⟩

/-! ## Claim C4: routing of files that are neither raw nor JPEG by extension -/

/-- C4 (amended part): for a file that is neither a raw file nor a JPEG by
extension and whose name has at least three dot-separated components,
`determine_target_base` routes it by its second-to-last component
uppercased: raw-format tags to the raw tree, `JPG`/`JPEG` to the JPEG
tree. (The claim's `IMG020.CR2.jpg` example is excluded: a literal `.jpg`
extension is a JPEG by extension and is routed to the JPEG tree first; see
the counterexample.) -/
theorem C4_format_tag_routing (filename : String) (raw_dir jpeg_dir default_base : Path)
    (hraw : is_raw_file filename = false) (hjpeg : is_jpeg_file filename = false)
    (hlen : 3 ≤ (splitStr '.' filename).length) :
    ((to_uppercase ((splitStr '.' filename).getD ((splitStr '.' filename).length - 2) "")
        = "ORF" ∨
      to_uppercase ((splitStr '.' filename).getD ((splitStr '.' filename).length - 2) "")
        = "CR2" ∨
      to_uppercase ((splitStr '.' filename).getD ((splitStr '.' filename).length - 2) "")
        = "NEF" ∨
      to_uppercase ((splitStr '.' filename).getD ((splitStr '.' filename).length - 2) "")
        = "ARW" ∨
      to_uppercase ((splitStr '.' filename).getD ((splitStr '.' filename).length - 2) "")
        = "DNG" ∨
      to_uppercase ((splitStr '.' filename).getD ((splitStr '.' filename).length - 2) "")
        = "RAW" →
      determine_target_base filename raw_dir jpeg_dir default_base = raw_dir)
    ∧ (to_uppercase ((splitStr '.' filename).getD ((splitStr '.' filename).length - 2) "")
        = "JPG" ∨
       to_uppercase ((splitStr '.' filename).getD ((splitStr '.' filename).length - 2) "")
        = "JPEG" →
      determine_target_base filename raw_dir jpeg_dir default_base = jpeg_dir)) := by
  unfold determine_target_base
  rw [hraw, hjpeg]
  simp only [Bool.false_eq_true, if_false, ge_iff_le, hlen, if_true]
  constructor
  · intro hfmt
    rw [if_pos hfmt]
  · intro hfmt
    rw [if_neg, if_pos hfmt]
    rcases hfmt with h | h <;> rw [h] <;> decide

/-- C4 witness: the sidecar `IMG020.CR2.xmp` (not raw, not JPEG, three
components, format tag `CR2`) is routed to the raw tree. -/
theorem C4_format_tag_routing_witness :
    determine_target_base "IMG020.CR2.xmp" ["out", "RAW"] ["out", "JPEG"] ["out", "D"]
      = ["out", "RAW"] :=
  (C4_format_tag_routing "IMG020.CR2.xmp" ["out", "RAW"] ["out", "JPEG"] ["out", "D"]
    (by decide) (by decide) (by decide)).1 (by decide)

/-- C4 counterexample: the claim's own example fails on the code. The
sidecar `IMG020.CR2.jpg` *is* a JPEG by extension (`ends_with ".jpg"`), so
`determine_target_base` routes it to the JPEG tree, not to the raw tree
implied by its embedded `CR2` tag. -/
theorem C4_sidecar_jpg_counterexample :
    determine_target_base "IMG020.CR2.jpg" ["out", "RAW"] ["out", "JPEG"] ["out", "D"]
      = ["out", "JPEG"] ∧
    (["out", "JPEG"] : Path) ≠ ["out", "RAW"] := by
  constructor
  · decide
  · decide

/-! ## Helper lemmas about grouping -/

/-- The grouping invariant: keys are unique, and every file in a unit is
keyed by its own filename. -/
def GoodGroups (gs : List (String × List Path)) : Prop :=
  (gs.map Prod.fst).Nodup ∧
  ∀ k fl, (k, fl) ∈ gs → ∀ q ∈ fl, ∃ n, fileName q = some n ∧ baseKey n = k

theorem insertGroup_keys (gs : List (String × List Path)) (k : String) (p : Path) :
    (insertGroup gs k p).map Prod.fst =
      if k ∈ gs.map Prod.fst then gs.map Prod.fst else gs.map Prod.fst ++ [k] := by
  induction gs with
  | nil => simp [insertGroup]
  | cons g rest ih =>
    obtain ⟨k2, fl2⟩ := g
    by_cases hk : k2 = k
    · subst hk
      simp [insertGroup]
    · simp only [insertGroup, if_neg hk, List.map_cons, ih]
      by_cases hmem : k ∈ rest.map Prod.fst
      · simp [hmem, Ne.symm hk]
      · simp [hmem, Ne.symm hk]

theorem goodGroups_insertGroup {gs : List (String × List Path)} {p : Path} {n : String}
    (hg : GoodGroups gs) (hn : fileName p = some n) :
    GoodGroups (insertGroup gs (baseKey n) p) := by
  induction gs with
  | nil =>
    refine ⟨by simp [insertGroup], ?_⟩
    intro k fl hmem q hq
    simp only [insertGroup, List.mem_singleton, Prod.mk.injEq] at hmem
    obtain ⟨hk, hfl⟩ := hmem
    subst hk
    subst hfl
    simp only [List.mem_singleton] at hq
    subst hq
    exact ⟨n, hn, rfl⟩
  | cons g rest ih =>
    obtain ⟨k2, fl2⟩ := g
    obtain ⟨hnd, hcont⟩ := hg
    rw [List.map_cons, List.nodup_cons] at hnd
    have hgrest : GoodGroups rest :=
      ⟨hnd.2, fun k fl hmem q hq => hcont k fl (List.mem_cons_of_mem _ hmem) q hq⟩
    by_cases hk : k2 = baseKey n
    · subst hk
      unfold insertGroup
      rw [if_pos rfl]
      refine ⟨?_, ?_⟩
      · simpa using And.intro hnd.1 hnd.2
      · intro k fl hmem q hq
        rcases List.mem_cons.mp hmem with hhead | htail
        · obtain ⟨hk2, hfl⟩ := Prod.mk.injEq .. ▸ hhead
          rw [hk2]
          rw [hfl] at hq
          rcases List.mem_append.mp hq with hq1 | hq2
          · exact hcont _ fl2 (List.mem_cons_self _ _) q hq1
          · simp only [List.mem_singleton] at hq2
            subst hq2
            exact ⟨n, hn, rfl⟩
        · exact hcont k fl (List.mem_cons_of_mem _ htail) q hq
    · unfold insertGroup
      rw [if_neg hk]
      obtain ⟨ihnd, ihcont⟩ := ih hgrest
      refine ⟨?_, ?_⟩
      · rw [List.map_cons, List.nodup_cons]
        refine ⟨?_, ihnd⟩
        rw [insertGroup_keys]
        by_cases hmem : baseKey n ∈ rest.map Prod.fst
        · rw [if_pos hmem]
          exact hnd.1
        · rw [if_neg hmem]
          intro hcontra
          rcases List.mem_append.mp hcontra with h | h
          · exact hnd.1 h
          · simp only [List.mem_singleton] at h
            exact hk h
      · intro k fl hmem q hq
        rcases List.mem_cons.mp hmem with hhead | htail
        · obtain ⟨hk2, hfl⟩ := Prod.mk.injEq .. ▸ hhead
          rw [hk2]
          rw [hfl] at hq
          exact hcont _ fl2 (List.mem_cons_self _ _) q hq
        · exact ihcont k fl htail q hq

theorem goodGroups_groupStep {gs : List (String × List Path)} (p : Path)
    (hg : GoodGroups gs) : GoodGroups (groupStep gs p) := by
  unfold groupStep
  cases hn : fileName p with
  | none => exact hg
  | some n => exact goodGroups_insertGroup hg hn

theorem goodGroups_foldl {files : List Path} {gs : List (String × List Path)}
    (hg : GoodGroups gs) : GoodGroups (files.foldl groupStep gs) := by
  induction files generalizing gs with
  | nil => exact hg
  | cons fp rest ih =>
    rw [List.foldl_cons]
    exact ih (goodGroups_groupStep fp hg)

theorem goodGroups_nil : GoodGroups [] :=
  ⟨List.nodup_nil, by intro k fl hmem; simp at hmem⟩

theorem insertGroup_flatten_perm (gs : List (String × List Path)) (k : String) (p : Path) :
    ((insertGroup gs k p).map Prod.snd).flatten.Perm
      ((gs.map Prod.snd).flatten ++ [p]) := by
  induction gs with
  | nil => simp [insertGroup]
  | cons g rest ih =>
    obtain ⟨k2, fl2⟩ := g
    by_cases hk : k2 = k
    · subst hk
      unfold insertGroup
      rw [if_pos rfl]
      simp only [List.map_cons, List.flatten_cons, List.append_assoc]
      exact (List.Perm.append_left fl2 (@List.perm_append_comm _ [p] _))
    · unfold insertGroup
      rw [if_neg hk]
      simp only [List.map_cons, List.flatten_cons, List.append_assoc]
      exact List.Perm.append_left fl2 ih

theorem group_flatten_perm {files : List Path}
    (h : ∀ p ∈ files, (fileName p).isSome = true) (gs : List (String × List Path)) :
    ((files.foldl groupStep gs).map Prod.snd).flatten.Perm
      ((gs.map Prod.snd).flatten ++ files) := by
  induction files generalizing gs with
  | nil => simp
  | cons fp rest ih =>
    rw [List.foldl_cons]
    have hstep : ((groupStep gs fp).map Prod.snd).flatten.Perm
        ((gs.map Prod.snd).flatten ++ [fp]) := by
      have hf := h fp (List.mem_cons_self fp rest)
      unfold groupStep
      cases hn : fileName fp with
      | none =>
        rw [hn] at hf
        exact absurd hf (by simp)
      | some n => exact insertGroup_flatten_perm gs (baseKey n) fp
    have hrest := ih (fun p hp => h p (List.mem_cons_of_mem fp hp)) (groupStep gs fp)
    refine hrest.trans ?_
    have := hstep.append_right rest
    refine this.trans ?_
    rw [List.append_assoc]
    rfl

theorem insertGroup_mem_self (gs : List (String × List Path)) (k : String) (p : Path) :
    ∃ fl, (k, fl) ∈ insertGroup gs k p ∧ p ∈ fl := by
  induction gs with
  | nil => exact ⟨[p], by simp [insertGroup], by simp⟩
  | cons g rest ih =>
    obtain ⟨k2, fl2⟩ := g
    by_cases hk : k2 = k
    · subst hk
      refine ⟨fl2 ++ [p], ?_, by simp⟩
      unfold insertGroup
      rw [if_pos rfl]
      exact List.mem_cons_self _ _
    · obtain ⟨fl, hmem, hp⟩ := ih
      refine ⟨fl, ?_, hp⟩
      unfold insertGroup
      rw [if_neg hk]
      exact List.mem_cons_of_mem _ hmem

theorem insertGroup_mem_mono {gs : List (String × List Path)} {k2 : String}
    {fl2 : List Path} {q : Path} (k : String) (p : Path)
    (h : (k2, fl2) ∈ gs) (hq : q ∈ fl2) :
    ∃ fl3, (k2, fl3) ∈ insertGroup gs k p ∧ q ∈ fl3 := by
  induction gs with
  | nil => exact absurd h (by simp)
  | cons g rest ih =>
    obtain ⟨k3, fl3⟩ := g
    by_cases hk : k3 = k
    · subst hk
      rcases List.mem_cons.mp h with hhead | htail
      · obtain ⟨hkk, hfl⟩ := Prod.mk.injEq .. ▸ hhead
        subst hkk
        subst hfl
        refine ⟨fl2 ++ [p], ?_, List.mem_append_left _ hq⟩
        unfold insertGroup
        rw [if_pos rfl]
        exact List.mem_cons_self _ _
      · refine ⟨fl2, ?_, hq⟩
        unfold insertGroup
        rw [if_pos rfl]
        exact List.mem_cons_of_mem _ htail
    · rcases List.mem_cons.mp h with hhead | htail
      · obtain ⟨hkk, hfl⟩ := Prod.mk.injEq .. ▸ hhead
        subst hkk
        subst hfl
        refine ⟨fl2, ?_, hq⟩
        unfold insertGroup
        rw [if_neg hk]
        exact List.mem_cons_self _ _
      · obtain ⟨fl4, hmem, hq4⟩ := ih htail
        refine ⟨fl4, ?_, hq4⟩
        unfold insertGroup
        rw [if_neg hk]
        exact List.mem_cons_of_mem _ hmem

theorem groupStep_mem_mono {gs : List (String × List Path)} {k2 : String}
    {fl2 : List Path} {q : Path} (p : Path)
    (h : (k2, fl2) ∈ gs) (hq : q ∈ fl2) :
    ∃ fl3, (k2, fl3) ∈ groupStep gs p ∧ q ∈ fl3 := by
  unfold groupStep
  cases fileName p with
  | none => exact ⟨fl2, h, hq⟩
  | some n => exact insertGroup_mem_mono (baseKey n) p h hq

theorem group_foldl_mem_mono {files : List Path} {gs : List (String × List Path)}
    {k : String} {fl : List Path} {q : Path}
    (h : (k, fl) ∈ gs) (hq : q ∈ fl) :
    ∃ fl2, (k, fl2) ∈ files.foldl groupStep gs ∧ q ∈ fl2 := by
  induction files generalizing gs fl with
  | nil => exact ⟨fl, h, hq⟩
  | cons fp rest ih =>
    rw [List.foldl_cons]
    obtain ⟨fl3, hmem, hq3⟩ := groupStep_mem_mono fp h hq
    exact ih hmem hq3

theorem group_mem_of_mem {files : List Path} {p : Path} {n : String}
    (hp : p ∈ files) (hn : fileName p = some n) (gs : List (String × List Path)) :
    ∃ fl, (baseKey n, fl) ∈ files.foldl groupStep gs ∧ p ∈ fl := by
  induction files generalizing gs with
  | nil => exact absurd hp (by simp)
  | cons fp rest ih =>
    rw [List.foldl_cons]
    rcases List.mem_cons.mp hp with hhead | htail
    · subst hhead
      have hstep : groupStep gs p = insertGroup gs (baseKey n) p := by
        unfold groupStep
        rw [hn]
      rw [hstep]
      obtain ⟨fl, hmem, hpf⟩ := insertGroup_mem_self gs (baseKey n) p
      exact group_foldl_mem_mono hmem hpf
    · exact ih htail (groupStep gs fp)

theorem nodup_keys_unique {gs : List (String × List Path)} {k : String}
    {fl1 fl2 : List Path} (hnd : (gs.map Prod.fst).Nodup)
    (h1 : (k, fl1) ∈ gs) (h2 : (k, fl2) ∈ gs) : fl1 = fl2 := by
  induction gs with
  | nil => exact absurd h1 (by simp)
  | cons g rest ih =>
    obtain ⟨k3, fl3⟩ := g
    rw [List.map_cons, List.nodup_cons] at hnd
    rcases List.mem_cons.mp h1 with hh1 | ht1
    · obtain ⟨hk1, hfl1⟩ := Prod.mk.injEq .. ▸ hh1
      subst hk1
      subst hfl1
      rcases List.mem_cons.mp h2 with hh2 | ht2
      · obtain ⟨-, hfl2⟩ := Prod.mk.injEq .. ▸ hh2
        exact hfl2.symm
      · exact absurd (List.mem_map_of_mem Prod.fst ht2) hnd.1
    · rcases List.mem_cons.mp h2 with hh2 | ht2
      · obtain ⟨hk2, hfl2⟩ := Prod.mk.injEq .. ▸ hh2
        subst hk2
        exact absurd (List.mem_map_of_mem Prod.fst ht1) hnd.1
      · exact ih hnd.2 ht1 ht2

/-! ## Claim C8: grouping is a partition -/

/-- C8: grouping is a partition of the collected files. The flattened units
are a permutation of the input, unit keys are unique, every file in a unit
is keyed by the part of its own filename before the first dot (so a file
lies in exactly one unit), and distinct units are disjoint. The hypothesis
says every collected path has a readable filename (`file_name()` and
`to_str()` succeed), which holds for paths produced by the directory walk. -/
theorem C8_grouping_partition (files : List Path)
    (h : ∀ p ∈ files, (fileName p).isSome = true) :
    ((group_files_by_base files).map Prod.snd).flatten.Perm files
    ∧ ((group_files_by_base files).map Prod.fst).Nodup
    ∧ (∀ k fl, (k, fl) ∈ group_files_by_base files →
        ∀ q ∈ fl, ∃ n, fileName q = some n ∧ baseKey n = k)
    ∧ List.Pairwise (fun a b => ∀ q, q ∈ a.2 → q ∉ b.2) (group_files_by_base files) := by
  have hgood : GoodGroups (group_files_by_base files) := goodGroups_foldl goodGroups_nil
  refine ⟨?_, hgood.1, hgood.2, ?_⟩
  · have hperm := group_flatten_perm h ([] : List (String × List Path))
    simpa using hperm
  · have hpair : List.Pairwise (fun a b : String × List Path => a.1 ≠ b.1)
        (group_files_by_base files) := List.pairwise_map.mp hgood.1
    refine hpair.imp_of_mem ?_
    intro a b ha hb hab q hqa hqb
    obtain ⟨n1, hn1, hk1⟩ := hgood.2 a.1 a.2 (by simpa using ha) q hqa
    obtain ⟨n2, hn2, hk2⟩ := hgood.2 b.1 b.2 (by simpa using hb) q hqb
    apply hab
    rw [← hk1, ← hk2]
    rw [hn1] at hn2
    rw [Option.some.inj hn2]

/-- C8 witness: a concrete three-file input (two files of one unit plus a
dot-file) satisfies the partition statement. -/
theorem C8_grouping_partition_witness :
    ((group_files_by_base [["in", "IMG1.jpg"], ["in", "IMG1.CR2"],
        ["in", ".hidden"]]).map Prod.snd).flatten.Perm
      [["in", "IMG1.jpg"], ["in", "IMG1.CR2"], ["in", ".hidden"]]
    ∧ ((group_files_by_base [["in", "IMG1.jpg"], ["in", "IMG1.CR2"],
        ["in", ".hidden"]]).map Prod.fst).Nodup
    ∧ (∀ k fl, (k, fl) ∈ group_files_by_base [["in", "IMG1.jpg"], ["in", "IMG1.CR2"],
        ["in", ".hidden"]] →
        ∀ q ∈ fl, ∃ n, fileName q = some n ∧ baseKey n = k)
    ∧ List.Pairwise (fun a b => ∀ q, q ∈ a.2 → q ∉ b.2)
        (group_files_by_base [["in", "IMG1.jpg"], ["in", "IMG1.CR2"],
          ["in", ".hidden"]]) :=
  C8_grouping_partition [["in", "IMG1.jpg"], ["in", "IMG1.CR2"], ["in", ".hidden"]]
    (by decide)

/-! ## Claim C10: dot-files share the empty unit key -/

/-- C10: a file whose filename begins with a dot gets the empty string as
its unit key, so it lands in the single unit keyed `""` — every dot-file
anywhere under the root joins that one unit (which therefore shares one
representative, one resolved date and one sequence-tag decision, since all
of those are computed once per unit). -/
theorem C10_dot_files_single_unit (files : List Path) (p : Path) (n : String)
    (hp : p ∈ files) (hn : fileName p = some n) (hdot : n.data.head? = some '.') :
    baseKey n = "" ∧
    (∃ fl, ("", fl) ∈ group_files_by_base files ∧ p ∈ fl) ∧
    (∀ fl1 fl2, ("", fl1) ∈ group_files_by_base files →
      ("", fl2) ∈ group_files_by_base files → fl1 = fl2) := by
  have hkey : baseKey n = "" := by
    cases hd : n.data with
    | nil =>
      rw [hd] at hdot
      exact absurd hdot (by simp)
    | cons c t =>
      rw [hd] at hdot
      have hc : c = '.' := by
        simp only [List.head?_cons, Option.some.injEq] at hdot
        exact hdot
      subst hc
      show ((splitCharAux '.' n.data []).map fun cs => String.mk cs).headD "" = ""
      rw [hd]
      rfl
  refine ⟨hkey, ?_, ?_⟩
  · have hmem := group_mem_of_mem hp hn ([] : List (String × List Path))
    rw [hkey] at hmem
    exact hmem
  · intro fl1 fl2 h1 h2
    have hgood : GoodGroups (group_files_by_base files) := goodGroups_foldl goodGroups_nil
    exact nodup_keys_unique hgood.1 h1 h2

/-- C10 witness: the dot-files `.hidden` and `.config` from different
directories both land in the single unit keyed `""`. -/
theorem C10_dot_files_single_unit_witness :
    baseKey ".hidden" = "" ∧
    (∃ fl, ("", fl) ∈ group_files_by_base [["a", ".hidden"], ["b", ".config"]] ∧
      ["a", ".hidden"] ∈ fl) ∧
    (∀ fl1 fl2, ("", fl1) ∈ group_files_by_base [["a", ".hidden"], ["b", ".config"]] →
      ("", fl2) ∈ group_files_by_base [["a", ".hidden"], ["b", ".config"]] →
      fl1 = fl2) :=
  C10_dot_files_single_unit [["a", ".hidden"], ["b", ".config"]] ["a", ".hidden"]
    ".hidden" (by decide) (by decide) (by decide)

end PictureSorter
